import Mathlib

/-!
Shallow embedding of `Python_Data_File_Processing/auriclass_subgrouping.py`.

The script classifies isolates into clades with an external tool and appends
rows to flat tab-delimited ledger files, deduplicating by isolate identifier.

Modelling choices:
* Files are association lists from file name to the list of lines on disk
  (each appended record in the script ends with a newline, so a file is a
  list of records); an absent key models a file that does not exist.
* The process-wide dictionary `file_written_ids` is a second association
  list from file name to the list of identifiers known to be present.
* `print` calls are modelled as emitted message lists.
* The external classifier subprocess is an oracle
  (`exitFailure` models a non-zero exit status, `missingReport` models a
  zero exit with no `report.tsv` artifact, `report rows` models a report
  file already parsed into tab-separated rows, as `csv.reader` yields them).
* Python string helpers (`str.strip`, `str.split`, `str.startswith`,
  `str.replace`) are modelled on the character list of the string;
  `str.strip()` uses the full CPython whitespace set (`isPySpace`).
* `out_f.write(line)` stores the record as one reload line. On re-read the
  program iterates physical lines, splitting records at the text-mode line
  breaks `\n`, `\r`, `\r\n`; a line break embedded in a field value
  would split its record into several physical lines whose extra first
  fields only enlarge the reload index. The identifiers admitted by
  `goodId` contain no line-break characters, so a `goodId` identifier is
  always the first tab-delimited field of its record's first physical
  line, in the model and in the program alike.
-/

/-- The whitespace set of Python `str.strip()` (Py_UNICODE_ISSPACE): the
ASCII whitespace and separator controls 0x9-0xd, 0x1c-0x1f and 0x20, plus
NEL, NBSP, the Unicode space separators, and the line and paragraph
separators. -/
def isPySpace (c : Char) : Bool :=
  c = '\x09' || c = '\x0a' || c = '\x0b' || c = '\x0c' || c = '\x0d' ||
  c = '\x1c' || c = '\x1d' || c = '\x1e' || c = '\x1f' || c = ' ' ||
  c = '\x85' || c = '\xa0' || c = '\u1680' ||
  ('\u2000' ≤ c && c ≤ '\u200a') ||
  c = '\u2028' || c = '\u2029' || c = '\u202f' || c = '\u205f' || c = '\u3000'

/-- Python `str.strip()` on a character list: drop Python whitespace on
both ends. -/
def stripChars (cs : List Char) : List Char :=
  ((cs.dropWhile isPySpace).reverse.dropWhile isPySpace).reverse

/-- Python `str.strip()`. -/
def strip (s : String) : String := ⟨stripChars s.data⟩

/-- Python `l.split("\t")[0].strip()`: the first tab-delimited field, stripped. -/
def firstField (l : String) : String :=
  strip ⟨l.data.takeWhile (fun c => c ≠ '\t')⟩

/-- Python `l.split("\t")[0]` without stripping: the raw first tab-delimited field. -/
def firstFieldRaw (l : String) : String :=
  ⟨l.data.takeWhile (fun c => c ≠ '\t')⟩

/-- Python `s.startswith("#")`. -/
def startsWithHash (s : String) : Bool :=
  match s.data with
  | [] => false
  | c :: _ => c = '#'

/-- Python `s.replace(" ", "_")` (single-character pattern). -/
def replaceSpaces (s : String) : String :=
  ⟨s.data.map (fun c => if c = ' ' then '_' else c)⟩

/-- Lookup in an association list keyed by strings (Python `dict` read). -/
def getA {α : Type} (k : String) : List (String × α) → Option α
  | [] => none
  | (k0, v) :: rest => if k0 = k then some v else getA k rest

/-- Update in an association list keyed by strings (Python `dict` write:
an existing key keeps its position, a new key is appended). -/
def setAssoc {α : Type} (k : String) (v : α) : List (String × α) → List (String × α)
  | [] => [(k, v)]
  | (k0, v0) :: rest => if k0 = k then (k, v) :: rest else (k0, v0) :: setAssoc k v rest

/-- `allowed_clades` from the script. -/
def allowed_clades : List String :=
  ["Clade I", "Clade II", "Clade III", "Clade IV", "Clade V", "Clade VI"]

/-- `SUMMARY_FILE = os.path.join(CLADE_DIR, "Clade_designations.tab")`. -/
def SUMMARY_FILE (clade_dir : String) : String := clade_dir ++ "/Clade_designations.tab"

/-- The summary header line `"Isolate_ID\tClade"`. -/
def summary_header : String := "Isolate_ID\tClade"

/-- Per-clade reads ledger path: `os.path.join(CLADE_DIR, f"{safe_clade}.reads.tab")`. -/
def clade_reads_file (clade_dir clade : String) : String :=
  clade_dir ++ "/" ++ replaceSpaces clade ++ ".reads.tab"

/-- Per-clade contigs ledger path: `os.path.join(CLADE_DIR, f"{safe_clade}.contigs.tab")`. -/
def clade_contigs_file (clade_dir clade : String) : String :=
  clade_dir ++ "/" ++ replaceSpaces clade ++ ".contigs.tab"

/-- The mutable state touched by `append_line_if_not_exists`: the files on disk
and the process-wide `file_written_ids` dictionary. -/
structure Store where
  files : List (String × List String)
  file_written_ids : List (String × List String)
deriving DecidableEq

/-- Whether a line matches the supplied header
(`header_line is not None and l.strip() == header_line.strip()`). -/
def matchesHeader (header_line : Option String) (l : String) : Bool :=
  match header_line with
  | some h => strip l == strip h
  | none => false

/-- The membership-index construction loop of `append_line_if_not_exists`:
read the file line by line, skip blank lines, skip a line matching the
header, and collect each remaining line's first tab-delimited field. -/
def loadIds (header_line : Option String) : List String → List String
  | [] => []
  | l :: ls =>
    if strip l = "" then loadIds header_line ls
    else if matchesHeader header_line l then loadIds header_line ls
    else firstField l :: loadIds header_line ls

/-- The lazy-load step of `append_line_if_not_exists`: on first reference to
`filename`, build its membership index from the file (empty if the file
does not exist). -/
def ensureLoaded (s : Store) (filename : String) (header_line : Option String) : Store :=
  match getA filename s.file_written_ids with
  | some _ => s
  | none =>
    let existing_ids :=
      match getA filename s.files with
      | some ls => loadIds header_line ls
      | none => []
    { s with file_written_ids := setAssoc filename existing_ids s.file_written_ids }

/-- `append_line_if_not_exists(filename, line, isolate_id, header_line)`.
Returns the new store, the committed flag, and the printed messages.
The written record (terminated by a newline in the script) is stored as a
single reload line; see the module docstring for how this relates to the
physical-line splitting of the program re-reading the file. -/
def append_line_if_not_exists (s : Store) (filename line isolate_id : String)
    (header_line : Option String) : Store × Bool × List String :=
  let s1 := ensureLoaded s filename header_line
  let ids := (getA filename s1.file_written_ids).getD []
  if isolate_id ∈ ids then
    (s1, false, [isolate_id ++ " already exists in " ++ filename ++ ". Skipping."])
  else
    ({ files := setAssoc filename ((getA filename s1.files).getD [] ++ [line]) s1.files,
       file_written_ids := setAssoc filename (ids ++ [isolate_id]) s1.file_written_ids },
     true, [])

/-- Startup step: create the summary file with its header if it does not
exist, and record an empty membership set for it. -/
def create_summary_file (clade_dir : String) (s : Store) : Store :=
  if (getA (SUMMARY_FILE clade_dir) s.files).isSome then s
  else
    { files := setAssoc (SUMMARY_FILE clade_dir) [summary_header] s.files,
      file_written_ids := setAssoc (SUMMARY_FILE clade_dir) [] s.file_written_ids }

/-- Message printed for a malformed (wrong field count) source-table row. -/
def skip_row_message (table : String) (row : List String) : String :=
  "Skipping malformed row in " ++ table ++ ": " ++ String.intercalate "," row

/-- The reads-table loading loop, row by row: `acc` carries the mapping
built so far (`reads_dict`) and the messages printed so far. A row is
skipped when it is empty or its first field starts with the comment marker;
a row unpacking into exactly three fields updates the mapping (last
occurrence wins, as for a Python dict); any other row is reported. -/
def load_rows_reads (table : String)
    (acc : List (String × (String × String)) × List String) :
    List (List String) → List (String × (String × String)) × List String
  | [] => acc
  | row :: rest =>
    if row = [] then load_rows_reads table acc rest
    else if startsWithHash (row.headD "") then load_rows_reads table acc rest
    else
      match row with
      | [isolate_id, reads1, reads2] =>
        load_rows_reads table (setAssoc isolate_id (reads1, reads2) acc.1, acc.2) rest
      | _ =>
        load_rows_reads table (acc.1, acc.2 ++ [skip_row_message table row]) rest

/-- Loading the reads table: builds `reads_dict` from an empty mapping. -/
def load_reads_tab (table : String) (rows : List (List String)) :
    List (String × (String × String)) × List String :=
  load_rows_reads table ([], []) rows

/-- The contigs-table loading loop, row by row; same skip semantics, with
exactly two expected fields. -/
def load_rows_contigs (table : String)
    (acc : List (String × String) × List String) :
    List (List String) → List (String × String) × List String
  | [] => acc
  | row :: rest =>
    if row = [] then load_rows_contigs table acc rest
    else if startsWithHash (row.headD "") then load_rows_contigs table acc rest
    else
      match row with
      | [isolate_id, contigs] =>
        load_rows_contigs table (setAssoc isolate_id contigs acc.1, acc.2) rest
      | _ =>
        load_rows_contigs table (acc.1, acc.2 ++ [skip_row_message table row]) rest

/-- Loading the contigs table: builds `contigs_dict` from an empty mapping. -/
def load_contigs_tab (table : String) (rows : List (List String)) :
    List (String × String) × List String :=
  load_rows_contigs table ([], []) rows

/-- Outcome of one external `auriclass` invocation: a non-zero exit status
with captured stderr, a zero exit with no `report.tsv` artifact, or a
report artifact already parsed into `csv.reader` rows. -/
inductive ClassifierOutcome where
  | exitFailure (stderr : String)
  | missingReport
  | report (rows : List (List String))

/-- `run_auriclass`: `None` on a non-zero exit status or a missing report
artifact, otherwise the report rows. -/
def run_auriclass : ClassifierOutcome → Option (List (List String))
  | .exitFailure _ => none
  | .missingReport => none
  | .report rows => some rows

/-- The messages printed by `run_auriclass` for one invocation. -/
def run_auriclass_log (outc : ClassifierOutcome) (isolate_id reads1 : String) : List String :=
  ("Running auriclass for " ++ isolate_id ++ ": auriclass " ++ reads1) ::
    (match outc with
     | .exitFailure e => ["Error running auriclass for " ++ isolate_id ++ ":", e]
     | .missingReport => ["Report file report.tsv not found for " ++ isolate_id]
     | .report _ => [])

/-- `parse_report`: consume the first row as a header; the first data row's
second column, stripped, is the clade; `None` when the report has no
header row, no data row, or a data row with fewer than two columns. -/
def parse_report (rows : List (List String)) : Option String :=
  match rows with
  | [] => none
  | _header :: rest =>
    match rest with
    | [] => none
    | row :: _ => if row.length < 2 then none else some (strip (row.getD 1 ""))

/-- The body of the main processing loop for one isolate: classify, parse,
validate the clade, then perform the three idempotent ledger appends.
Returns the new store and the printed messages. -/
def process_sample (clade_dir : String) (contigs_dict : List (String × String))
    (oracle : String → String → ClassifierOutcome)
    (s : Store) (isolate_id reads1 reads2 : String) : Store × List String :=
  let outc := oracle isolate_id reads1
  let pre := ("Processing sample " ++ isolate_id ++ " ...") ::
    run_auriclass_log outc isolate_id reads1
  match run_auriclass outc with
  | none => (s, pre ++ ["Skipping " ++ isolate_id ++ " due to auriclass error."])
  | some rows =>
    match parse_report rows with
    | none => (s, pre ++ ["Skipping " ++ isolate_id ++ " because no clade was extracted."])
    | some clade =>
      let pre2 := pre ++ ["Extracted clade: " ++ clade]
      if clade ∈ allowed_clades then
        let reads_line := isolate_id ++ "\t" ++ reads1 ++ "\t" ++ reads2
        let summary_line := isolate_id ++ "\t" ++ clade
        let r1 := append_line_if_not_exists s (clade_reads_file clade_dir clade)
          reads_line isolate_id none
        let r2 :=
          match getA isolate_id contigs_dict with
          | some contigs_path =>
            if contigs_path = "" then
              (r1.1, ["Warning: No contigs entry found for " ++ isolate_id])
            else
              let a := append_line_if_not_exists r1.1 (clade_contigs_file clade_dir clade)
                (isolate_id ++ "\t" ++ contigs_path) isolate_id none
              (a.1, a.2.2)
          | none => (r1.1, ["Warning: No contigs entry found for " ++ isolate_id])
        let r3 := append_line_if_not_exists r2.1 (SUMMARY_FILE clade_dir)
          summary_line isolate_id (some summary_header)
        (r3.1, pre2 ++ r1.2.2 ++ r2.2 ++ r3.2.2 ++
          ["Assigned sample " ++ isolate_id ++ " to " ++ clade])
      else
        (s, pre2 ++ ["Warning: Clade " ++ clade ++ " for " ++ isolate_id ++
          " is not in the allowed list. Skipping sample."])

/-- One full pipeline run: create the summary file if needed, then process
every isolate of the reads table in order. Returns the final store and
all printed messages. -/
def run_pipeline (clade_dir : String) (oracle : String → String → ClassifierOutcome)
    (reads_dict : List (String × String × String)) (contigs_dict : List (String × String))
    (s : Store) : Store × List String :=
  let start := (create_summary_file clade_dir s, ([] : List String))
  let fin := reads_dict.foldl
    (fun acc e =>
      let r := process_sample clade_dir contigs_dict oracle acc.1 e.1 e.2.1 e.2.2
      (r.1, acc.2 ++ r.2))
    start
  (fin.1, fin.2 ++ ["Pipeline completed."])

/-- One call record of `append_line_if_not_exists`, for reasoning about
arbitrary call sequences within a run. -/
structure AppendOp where
  filename : String
  line : String
  isolate_id : String
  header_line : Option String

/-- Run a sequence of `append_line_if_not_exists` calls, keeping the store. -/
def runAppends (s : Store) (ops : List AppendOp) : Store :=
  ops.foldl (fun s op => (append_line_if_not_exists s op.filename op.line
    op.isolate_id op.header_line).1) s

/-- Lines of a file in a store (empty when the file does not exist). -/
def linesOf (s : Store) (f : String) : List String := (getA f s.files).getD []

/-- A well-formed isolate identifier: nonempty, already stripped (no
leading or trailing Python whitespace), and containing no tab and no
line-break character (`\n` or `\r`, the characters at which text-mode
reads split a stored record into physical lines). Identifiers outside this
set defeat the cross-run membership reload, which re-reads each ledger
line by line and strips the first tab-delimited field of each line. -/
def goodId (id : String) : Prop :=
  id ≠ "" ∧ strip id = id ∧ '\t' ∉ id.data ∧ '\n' ∉ id.data ∧ '\r' ∉ id.data

instance goodId.decPred : DecidablePred goodId := fun id => by
  unfold goodId; infer_instance

/-- The header argument the pipeline passes for a given ledger file: the
summary ledger is read with the fixed header, every other ledger without. -/
def hdrFor (clade_dir f : String) : Option String :=
  if f = SUMMARY_FILE clade_dir then some summary_header else none

/-- File-system growth: every file of `F` is a prefix of the same file in
`F'`, and files present in `F` are still present in `F'`. -/
def filesExtend (F F' : List (String × List String)) : Prop :=
  ∀ f, (∃ t, (getA f F').getD [] = (getA f F).getD [] ++ t) ∧
    ((getA f F).isSome → (getA f F').isSome)

/-- Soundness of the in-memory membership index during a run: every
well-formed identifier recorded for a file can be recovered by re-reading
that file from disk with the header policy the pipeline uses. -/
def IndexSound (clade_dir : String) (s : Store) : Prop :=
  ∀ f ids, getA f s.file_written_ids = some ids →
    ∀ x ∈ ids, goodId x → x ∈ loadIds (hdrFor clade_dir f) (linesOf s f)

/-- After a run over file system `F`, the isolate of `e` is recorded in
every ledger its classification outcome commits to. -/
def coveredSample (clade_dir : String) (contigs_dict : List (String × String))
    (oracle : String → String → ClassifierOutcome)
    (F : List (String × List String)) (e : String × String × String) : Prop :=
  ∀ rows clade, run_auriclass (oracle e.1 e.2.1) = some rows →
    parse_report rows = some clade → clade ∈ allowed_clades →
    e.1 ∈ loadIds none ((getA (clade_reads_file clade_dir clade) F).getD []) ∧
    e.1 ∈ loadIds (some summary_header) ((getA (SUMMARY_FILE clade_dir) F).getD []) ∧
    ∀ p, getA e.1 contigs_dict = some p → p ≠ "" →
      e.1 ∈ loadIds none ((getA (clade_contigs_file clade_dir clade) F).getD [])

/-- Completeness of the in-memory membership index with respect to a fixed
file system `F`: every identifier recoverable from the file on disk is in
the recorded membership set. Holds during a re-run that writes nothing. -/
def IndexComplete (clade_dir : String) (F : List (String × List String))
    (s : Store) : Prop :=
  ∀ f ids, getA f s.file_written_ids = some ids →
    ∀ x, x ∈ loadIds (hdrFor clade_dir f) ((getA f F).getD []) → x ∈ ids

/-! ### Association-list lemmas -/

theorem getA_setAssoc_self {α : Type} (k : String) (v : α) :
    ∀ l : List (String × α), getA k (setAssoc k v l) = some v := by
  intro l
  induction l with
  | nil => simp [getA, setAssoc]
  | cons hd tl ih =>
    obtain ⟨k0, v0⟩ := hd
    by_cases h : k0 = k
    · simp [getA, setAssoc, h]
    · simp [getA, setAssoc, h, ih]

theorem getA_setAssoc_ne {α : Type} {k k' : String} (v : α) (h : k' ≠ k) :
    ∀ l : List (String × α), getA k' (setAssoc k v l) = getA k' l := by
  intro l
  have hk : ¬ k = k' := fun e => h e.symm
  induction l with
  | nil => simp [getA, setAssoc, hk]
  | cons hd tl ih =>
    obtain ⟨k0, v0⟩ := hd
    by_cases hk0 : k0 = k
    · subst hk0
      simp [getA, setAssoc, hk]
    · simp only [setAssoc, if_neg hk0, getA]
      by_cases hk' : k0 = k'
      · simp [hk']
      · simp [hk', ih]

/-! ### loadIds lemmas -/

theorem loadIds_append (h : Option String) (l1 l2 : List String) :
    loadIds h (l1 ++ l2) = loadIds h l1 ++ loadIds h l2 := by
  induction l1 with
  | nil => simp [loadIds]
  | cons x xs ih =>
    by_cases h1 : strip x = ""
    · simp [loadIds, h1, ih]
    · by_cases h2 : matchesHeader h x
      · simp [loadIds, h1, h2, ih]
      · simp [loadIds, h1, h2, ih]

theorem mem_loadIds_mono {x : String} {h : Option String} {l1 l2 : List String}
    (hm : x ∈ loadIds h l1) : x ∈ loadIds h (l1 ++ l2) := by
  rw [loadIds_append]; exact List.mem_append_left _ hm

theorem loadIds_keep {h : Option String} {line : String}
    (h1 : strip line ≠ "") (h2 : matchesHeader h line = false) :
    loadIds h [line] = [firstField line] := by
  simp [loadIds, h1, h2]

/-! ### String-structure lemmas -/

theorem strData_append (a b : String) : (a ++ b).data = a.data ++ b.data := rfl

theorem strAppend_cancel_left {p a b : String} (h : p ++ a = p ++ b) : a = b := by
  have hd : p.data ++ a.data = p.data ++ b.data := by
    have := congrArg String.data h
    simpa [strData_append] using this
  exact String.ext (List.append_cancel_left hd)

theorem strAppend_ne_right (p : String) {a b : String} (h : a ≠ b) :
    p ++ a ≠ p ++ b := fun e => h (strAppend_cancel_left e)

theorem length_dropWhile_le' {α : Type} (p : α → Bool) :
    ∀ l : List α, (l.dropWhile p).length ≤ l.length := by
  intro l
  induction l with
  | nil => simp [List.dropWhile]
  | cons x xs ih =>
    rw [List.dropWhile_cons]
    by_cases h : p x
    · simp only [h, if_true]; exact Nat.le_succ_of_le ih
    · simp [h]

theorem dropWhile_eq_self_of_length {α : Type} (p : α → Bool) :
    ∀ l : List α, (l.dropWhile p).length = l.length → l.dropWhile p = l := by
  intro l
  induction l with
  | nil => simp
  | cons x xs ih =>
    intro hl
    rw [List.dropWhile_cons] at hl ⊢
    by_cases h : p x
    · exfalso
      simp only [h, if_true, List.length_cons] at hl
      have := length_dropWhile_le' p xs
      omega
    · simp [h]

theorem mem_of_mem_dropWhile {α : Type} {p : α → Bool} {x : α} :
    ∀ {l : List α}, x ∈ l.dropWhile p → x ∈ l := by
  intro l
  induction l with
  | nil => simp
  | cons y ys ih =>
    intro hx
    rw [List.dropWhile_cons] at hx
    by_cases h : p y
    · simp only [h, if_true] at hx
      exact List.mem_cons_of_mem _ (ih hx)
    · simpa [h] using hx

theorem stripChars_length_le (cs : List Char) : (stripChars cs).length ≤ cs.length := by
  unfold stripChars
  calc ((cs.dropWhile isPySpace).reverse.dropWhile isPySpace).reverse.length
      = ((cs.dropWhile isPySpace).reverse.dropWhile isPySpace).length := by
        simp
    _ ≤ (cs.dropWhile isPySpace).reverse.length := length_dropWhile_le' _ _
    _ = (cs.dropWhile isPySpace).length := by simp
    _ ≤ cs.length := length_dropWhile_le' _ _

theorem dropWhile_of_stripChars_eq {cs : List Char} (h : stripChars cs = cs) :
    cs.dropWhile isPySpace = cs ∧
      cs.reverse.dropWhile isPySpace = cs.reverse := by
  have hlen : (stripChars cs).length = cs.length := by rw [h]
  have h1 : (cs.dropWhile isPySpace).length = cs.length := by
    have hle1 := length_dropWhile_le' isPySpace cs
    have : (stripChars cs).length ≤ (cs.dropWhile isPySpace).length := by
      unfold stripChars
      calc ((cs.dropWhile isPySpace).reverse.dropWhile isPySpace).reverse.length
          = ((cs.dropWhile isPySpace).reverse.dropWhile isPySpace).length := by simp
        _ ≤ (cs.dropWhile isPySpace).reverse.length := length_dropWhile_le' _ _
        _ = (cs.dropWhile isPySpace).length := by simp
    omega
  have hdrop : cs.dropWhile isPySpace = cs :=
    dropWhile_eq_self_of_length _ _ h1
  refine ⟨hdrop, ?_⟩
  have h2 : stripChars cs = (cs.reverse.dropWhile isPySpace).reverse := by
    unfold stripChars; rw [hdrop]
  have h3 : (cs.reverse.dropWhile isPySpace).reverse = cs := by rw [← h2, h]
  have := congrArg List.reverse h3
  simpa using this

theorem stripChars_eq_of_ends {cs : List Char}
    (h1 : cs.dropWhile isPySpace = cs)
    (h2 : cs.reverse.dropWhile isPySpace = cs.reverse) :
    stripChars cs = cs := by
  unfold stripChars
  rw [h1, h2, List.reverse_reverse]

theorem mem_dropWhile_of_not_p {α : Type} {p : α → Bool} {c : α} (hw : p c = false) :
    ∀ {l : List α}, c ∈ l → c ∈ l.dropWhile p := by
  intro l
  induction l with
  | nil => simp
  | cons y ys ih =>
    intro hc
    rw [List.dropWhile_cons]
    rcases List.mem_cons.mp hc with rfl | htl
    · simp [hw]
    · by_cases hy : p y
      · simp only [hy, if_true]; exact ih htl
      · rw [if_neg (by simp [hy])]
        exact List.mem_cons_of_mem _ htl

theorem all_ws_of_stripChars_nil {cs : List Char} (h : stripChars cs = []) :
    ∀ c ∈ cs, isPySpace c = true := by
  unfold stripChars at h
  have h1 : (cs.dropWhile isPySpace).reverse.dropWhile isPySpace = [] := by
    have := congrArg List.reverse h
    simpa using this
  have h2 : ∀ c ∈ (cs.dropWhile isPySpace).reverse, isPySpace c = true :=
    List.dropWhile_eq_nil_iff.mp h1
  intro c hc
  by_cases hw : isPySpace c
  · exact hw
  · exfalso
    have hmem : c ∈ cs.dropWhile isPySpace :=
      mem_dropWhile_of_not_p (by simpa using hw) hc
    have hmem' : c ∈ (cs.dropWhile isPySpace).reverse := by simpa using hmem
    exact hw (by simpa using h2 c hmem')

/-! ### Identifier and line-shape lemmas -/

theorem goodId_data_ne_nil {id : String} (h : goodId id) : id.data ≠ [] := by
  intro e
  exact h.1 (String.ext (by simpa using e))

theorem stripChars_of_goodId {id : String} (h : goodId id) :
    stripChars id.data = id.data := congrArg String.data h.2.1

theorem head_false_of_dropWhile_eq_self {α : Type} {p : α → Bool} {l : List α}
    (h : l.dropWhile p = l) : ∀ c cs, l = c :: cs → p c = false := by
  intro c cs e
  subst e
  rw [List.dropWhile_cons] at h
  by_cases hc : p c
  · exfalso
    simp only [hc, if_true] at h
    have h1 := length_dropWhile_le' p cs
    have h2 := congrArg List.length h
    simp only [List.length_cons] at h2
    omega
  · simpa using hc

theorem goodId_head_not_ws {id : String} (h : goodId id) :
    ∀ c cs, id.data = c :: cs → isPySpace c = false := by
  have hs := stripChars_of_goodId h
  exact head_false_of_dropWhile_eq_self (dropWhile_of_stripChars_eq hs).1

theorem goodId_revhead_not_ws {id : String} (h : goodId id) :
    ∀ c cs, id.data.reverse = c :: cs → isPySpace c = false := by
  have hs := stripChars_of_goodId h
  exact head_false_of_dropWhile_eq_self (dropWhile_of_stripChars_eq hs).2

theorem line_data (id rest : String) :
    (id ++ "\t" ++ rest).data = id.data ++ '\t' :: rest.data := by
  rw [strData_append, strData_append]
  simp

theorem takeWhile_until {α : Type} (p : α → Bool) :
    ∀ (l1 : List α) (x : α) (l2 : List α), (∀ c ∈ l1, p c = true) → p x = false →
      (l1 ++ x :: l2).takeWhile p = l1 := by
  intro l1
  induction l1 with
  | nil =>
    intro x l2 _ hx
    simp [List.takeWhile_cons, hx]
  | cons c cs ih =>
    intro x l2 hall hx
    have hc : p c = true := hall c (by simp)
    simp only [List.cons_append, List.takeWhile_cons, hc, if_true]
    rw [ih x l2 (fun d hd => hall d (by simp [hd])) hx]

theorem takeWhile_notTab_line {id : String} (h : '\t' ∉ id.data) (rest : String) :
    (id ++ "\t" ++ rest).data.takeWhile (fun c => c ≠ '\t') = id.data := by
  rw [line_data]
  refine takeWhile_until _ id.data '\t' rest.data ?_ (by simp)
  intro c hc
  have hne : c ≠ '\t' := by
    intro e
    subst e
    exact h hc
  simpa using hne

theorem firstField_line {id : String} (h : '\t' ∉ id.data) (rest : String) :
    firstField (id ++ "\t" ++ rest) = strip id := by
  unfold firstField
  rw [takeWhile_notTab_line h]

theorem firstFieldRaw_line {id : String} (h : '\t' ∉ id.data) (rest : String) :
    firstFieldRaw (id ++ "\t" ++ rest) = id := by
  unfold firstFieldRaw
  rw [takeWhile_notTab_line h]

theorem strip_line_ne_empty {id : String} (h : goodId id) (rest : String) :
    strip (id ++ "\t" ++ rest) ≠ "" := by
  intro e
  have hall : ∀ c ∈ (id ++ "\t" ++ rest).data, isPySpace c = true :=
    all_ws_of_stripChars_nil (congrArg String.data e)
  obtain ⟨c, cs, hdata⟩ : ∃ c cs, id.data = c :: cs := by
    cases hd : id.data with
    | nil => exact absurd hd (goodId_data_ne_nil h)
    | cons c cs => exact ⟨c, cs, rfl⟩
  have hcmem : c ∈ (id ++ "\t" ++ rest).data := by
    rw [line_data, hdata]; simp
  have := hall c hcmem
  rw [goodId_head_not_ws h c cs hdata] at this
  exact Bool.false_ne_true this

theorem dropWhile_eq_self_of_head {α : Type} {p : α → Bool} {c : α} (hc : p c = false)
    (l : List α) : (c :: l).dropWhile p = c :: l := by
  rw [List.dropWhile_cons, if_neg (by simp [hc])]

theorem strip_line_eq_self {id rest : String}
    (hid1 : id.data.dropWhile isPySpace = id.data)
    (hid2 : id.data ≠ [])
    (hrest1 : rest.data.reverse.dropWhile isPySpace = rest.data.reverse)
    (hrest2 : rest.data ≠ []) :
    strip (id ++ "\t" ++ rest) = id ++ "\t" ++ rest := by
  apply String.ext
  show stripChars (id ++ "\t" ++ rest).data = (id ++ "\t" ++ rest).data
  apply stripChars_eq_of_ends
  · obtain ⟨c, cs, hdata⟩ : ∃ c cs, id.data = c :: cs := by
      cases hd : id.data with
      | nil => exact absurd hd hid2
      | cons c cs => exact ⟨c, cs, rfl⟩
    have hc : isPySpace c = false := head_false_of_dropWhile_eq_self hid1 c cs hdata
    rw [line_data, hdata, List.cons_append]
    exact dropWhile_eq_self_of_head hc _
  · obtain ⟨c, cs, hdata⟩ : ∃ c cs, rest.data.reverse = c :: cs := by
      cases hd : rest.data.reverse with
      | nil =>
        exfalso
        exact hrest2 (by simpa using congrArg List.reverse hd)
      | cons c cs => exact ⟨c, cs, rfl⟩
    have hc : isPySpace c = false := head_false_of_dropWhile_eq_self hrest1 c cs hdata
    rw [line_data, List.reverse_append, List.reverse_cons, List.append_assoc, hdata,
      List.cons_append]
    exact dropWhile_eq_self_of_head hc _

theorem allowed_clade_facts {clade : String} (h : clade ∈ allowed_clades) :
    clade.data ≠ [] ∧
      clade.data.reverse.dropWhile isPySpace = clade.data.reverse ∧
      clade ≠ "Clade" := by
  have h6 : clade = "Clade I" ∨ clade = "Clade II" ∨ clade = "Clade III" ∨
      clade = "Clade IV" ∨ clade = "Clade V" ∨ clade = "Clade VI" := by
    simpa [allowed_clades] using h
  rcases h6 with rfl | rfl | rfl | rfl | rfl | rfl <;>
    exact ⟨by decide, by decide, by decide⟩

theorem summary_line_not_header {id clade : String} (hid : goodId id)
    (hc : clade ∈ allowed_clades) :
    matchesHeader (some summary_header) (id ++ "\t" ++ clade) = false := by
  obtain ⟨hcne, hcrev, hcnc⟩ := allowed_clade_facts hc
  have hs : strip (id ++ "\t" ++ clade) = id ++ "\t" ++ clade :=
    strip_line_eq_self (dropWhile_of_stripChars_eq (stripChars_of_goodId hid)).1
      (goodId_data_ne_nil hid) hcrev hcne
  have hshdr : strip summary_header = summary_header := by decide
  simp only [matchesHeader, hs, hshdr]
  rw [beq_eq_false_iff_ne]
  intro e
  have hff := congrArg firstField e
  rw [firstField_line hid.2.2.1, hid.2.1] at hff
  have : firstField summary_header = "Isolate_ID" := by decide
  rw [this] at hff
  subst hff
  have he : ("Isolate_ID" : String) ++ "\t" ++ clade = "Isolate_ID" ++ "\t" ++ "Clade" := by
    rw [e]; decide
  have := strAppend_cancel_left he
  exact hcnc this

/-! ### Ledger target-file distinctness -/

theorem clade_path_ne (d x y u v : String) (h : x ++ u ≠ y ++ v) :
    d ++ "/" ++ x ++ u ≠ d ++ "/" ++ y ++ v := by
  intro e
  apply h
  have e' : (d ++ "/") ++ (x ++ u) = (d ++ "/") ++ (y ++ v) := by
    simpa [String.append_assoc] using e
  exact strAppend_cancel_left e'

theorem clade_path_ne_summary (d x u : String)
    (h : "/" ++ (x ++ u) ≠ "/Clade_designations.tab") :
    d ++ "/" ++ x ++ u ≠ SUMMARY_FILE d := by
  intro e
  apply h
  have e' : d ++ ("/" ++ (x ++ u)) = d ++ "/Clade_designations.tab" := by
    simpa [SUMMARY_FILE, String.append_assoc] using e
  exact strAppend_cancel_left e'

theorem target_files_ne (clade_dir : String) {clade : String} (h : clade ∈ allowed_clades) :
    clade_reads_file clade_dir clade ≠ SUMMARY_FILE clade_dir ∧
      clade_contigs_file clade_dir clade ≠ SUMMARY_FILE clade_dir ∧
      clade_reads_file clade_dir clade ≠ clade_contigs_file clade_dir clade := by
  have h6 : clade = "Clade I" ∨ clade = "Clade II" ∨ clade = "Clade III" ∨
      clade = "Clade IV" ∨ clade = "Clade V" ∨ clade = "Clade VI" := by
    simpa [allowed_clades] using h
  rcases h6 with rfl | rfl | rfl | rfl | rfl | rfl <;>
    exact ⟨clade_path_ne_summary _ _ _ (by decide),
      clade_path_ne_summary _ _ _ (by decide),
      clade_path_ne _ _ _ _ _ (strAppend_ne_right _ (by decide))⟩

/-! ### Case equations for append_line_if_not_exists -/

theorem setAssoc_setAssoc {α : Type} (k : String) (v w : α) :
    ∀ l : List (String × α), setAssoc k v (setAssoc k w l) = setAssoc k v l := by
  intro l
  induction l with
  | nil => simp [setAssoc]
  | cons hd tl ih =>
    obtain ⟨k0, v0⟩ := hd
    by_cases hk : k0 = k
    · subst hk
      simp [setAssoc]
    · simp [setAssoc, hk, ih]

theorem ensureLoaded_loaded {s : Store} {f : String} {hdr : Option String}
    {ids : List String} (hl : getA f s.file_written_ids = some ids) :
    ensureLoaded s f hdr = s := by
  unfold ensureLoaded
  rw [hl]

theorem ensureLoaded_fresh {s : Store} {f : String} {hdr : Option String}
    (hl : getA f s.file_written_ids = none) :
    ensureLoaded s f hdr =
      { s with file_written_ids :=
          setAssoc f (loadIds hdr (linesOf s f)) s.file_written_ids } := by
  unfold ensureLoaded linesOf
  rw [hl]
  cases hf : getA f s.files <;> simp [loadIds]

theorem append_loaded_skip {s : Store} {f line id : String} {hdr : Option String}
    {ids : List String} (hl : getA f s.file_written_ids = some ids) (hm : id ∈ ids) :
    append_line_if_not_exists s f line id hdr =
      (s, false, [id ++ " already exists in " ++ f ++ ". Skipping."]) := by
  simp only [append_line_if_not_exists, ensureLoaded_loaded hl, hl, Option.getD_some]
  rw [if_pos hm]

theorem append_loaded_commit {s : Store} {f line id : String} {hdr : Option String}
    {ids : List String} (hl : getA f s.file_written_ids = some ids) (hm : id ∉ ids) :
    append_line_if_not_exists s f line id hdr =
      ({ files := setAssoc f (linesOf s f ++ [line]) s.files,
         file_written_ids := setAssoc f (ids ++ [id]) s.file_written_ids },
       true, []) := by
  simp only [append_line_if_not_exists, ensureLoaded_loaded hl, hl, Option.getD_some, linesOf]
  rw [if_neg hm]

theorem append_fresh_skip {s : Store} {f line id : String} {hdr : Option String}
    (hl : getA f s.file_written_ids = none)
    (hm : id ∈ loadIds hdr (linesOf s f)) :
    append_line_if_not_exists s f line id hdr =
      ({ s with file_written_ids :=
           setAssoc f (loadIds hdr (linesOf s f)) s.file_written_ids },
       false, [id ++ " already exists in " ++ f ++ ". Skipping."]) := by
  simp only [append_line_if_not_exists, ensureLoaded_fresh hl, getA_setAssoc_self,
    Option.getD_some]
  rw [if_pos hm]

theorem append_fresh_commit {s : Store} {f line id : String} {hdr : Option String}
    (hl : getA f s.file_written_ids = none)
    (hm : id ∉ loadIds hdr (linesOf s f)) :
    append_line_if_not_exists s f line id hdr =
      ({ files := setAssoc f (linesOf s f ++ [line]) s.files,
         file_written_ids :=
           setAssoc f (loadIds hdr (linesOf s f) ++ [id]) s.file_written_ids },
       true, []) := by
  simp only [append_line_if_not_exists, ensureLoaded_fresh hl, getA_setAssoc_self,
    Option.getD_some]
  rw [if_neg hm]
  simp [setAssoc_setAssoc, linesOf]

/-! ### Locality and growth of appends -/

theorem append_files_other {s : Store} {f line id g : String} {hdr : Option String}
    (hg : g ≠ f) :
    getA g (append_line_if_not_exists s f line id hdr).1.files = getA g s.files := by
  rcases hl : getA f s.file_written_ids with _ | ids
  · by_cases hm : id ∈ loadIds hdr (linesOf s f)
    · rw [append_fresh_skip hl hm]
    · rw [append_fresh_commit hl hm]
      exact getA_setAssoc_ne _ hg _
  · by_cases hm : id ∈ ids
    · rw [append_loaded_skip hl hm]
    · rw [append_loaded_commit hl hm]
      exact getA_setAssoc_ne _ hg _

theorem append_ids_other {s : Store} {f line id g : String} {hdr : Option String}
    (hg : g ≠ f) :
    getA g (append_line_if_not_exists s f line id hdr).1.file_written_ids =
      getA g s.file_written_ids := by
  rcases hl : getA f s.file_written_ids with _ | ids
  · by_cases hm : id ∈ loadIds hdr (linesOf s f)
    · rw [append_fresh_skip hl hm]
      exact getA_setAssoc_ne _ hg _
    · rw [append_fresh_commit hl hm]
      exact getA_setAssoc_ne _ hg _
  · by_cases hm : id ∈ ids
    · rw [append_loaded_skip hl hm]
    · rw [append_loaded_commit hl hm]
      exact getA_setAssoc_ne _ hg _

theorem append_files_shape (s : Store) (f line id : String) (hdr : Option String) :
    (append_line_if_not_exists s f line id hdr).1.files = s.files ∨
      (append_line_if_not_exists s f line id hdr).1.files =
        setAssoc f (linesOf s f ++ [line]) s.files := by
  rcases hl : getA f s.file_written_ids with _ | ids
  · by_cases hm : id ∈ loadIds hdr (linesOf s f)
    · rw [append_fresh_skip hl hm]; exact Or.inl rfl
    · rw [append_fresh_commit hl hm]; exact Or.inr rfl
  · by_cases hm : id ∈ ids
    · rw [append_loaded_skip hl hm]; exact Or.inl rfl
    · rw [append_loaded_commit hl hm]; exact Or.inr rfl

theorem filesExtend_refl (F : List (String × List String)) : filesExtend F F :=
  fun _ => ⟨⟨[], by simp⟩, fun h => h⟩

theorem filesExtend_trans {F G H : List (String × List String)}
    (h1 : filesExtend F G) (h2 : filesExtend G H) : filesExtend F H := by
  intro f
  obtain ⟨⟨t1, ht1⟩, hs1⟩ := h1 f
  obtain ⟨⟨t2, ht2⟩, hs2⟩ := h2 f
  exact ⟨⟨t1 ++ t2, by rw [ht2, ht1, List.append_assoc]⟩, fun h => hs2 (hs1 h)⟩

theorem append_filesExtend (s : Store) (f line id : String) (hdr : Option String) :
    filesExtend s.files (append_line_if_not_exists s f line id hdr).1.files := by
  rcases append_files_shape s f line id hdr with h | h <;> rw [h]
  · exact filesExtend_refl _
  · intro g
    by_cases hg : g = f
    · subst hg
      refine ⟨⟨[line], ?_⟩, fun _ => ?_⟩
      · rw [getA_setAssoc_self]
        rfl
      · rw [getA_setAssoc_self]
        rfl
    · rw [getA_setAssoc_ne _ hg]
      exact ⟨⟨[], by simp⟩, fun h => h⟩

theorem create_summary_filesExtend (clade_dir : String) (s : Store) :
    filesExtend s.files (create_summary_file clade_dir s).files := by
  unfold create_summary_file
  by_cases h : (getA (SUMMARY_FILE clade_dir) s.files).isSome
  · rw [if_pos h]
    exact filesExtend_refl _
  · rw [if_neg h]
    intro g
    by_cases hg : g = SUMMARY_FILE clade_dir
    · rw [hg]
      have hnone : getA (SUMMARY_FILE clade_dir) s.files = none := by
        cases hx : getA (SUMMARY_FILE clade_dir) s.files
        · rfl
        · exact absurd (by rw [hx]; rfl) h
      refine ⟨⟨[summary_header], ?_⟩, fun _ => ?_⟩
      · rw [getA_setAssoc_self, hnone]
        rfl
      · rw [getA_setAssoc_self]
        rfl
    · rw [getA_setAssoc_ne _ hg]
      exact ⟨⟨[], by simp⟩, fun h => h⟩

theorem create_summary_isSome (clade_dir : String) (s : Store) :
    (getA (SUMMARY_FILE clade_dir) (create_summary_file clade_dir s).files).isSome := by
  unfold create_summary_file
  by_cases h : (getA (SUMMARY_FILE clade_dir) s.files).isSome
  · rwa [if_pos h]
  · rw [if_neg h]
    simp only [getA_setAssoc_self]
    rfl

theorem create_summary_of_isSome {clade_dir : String} {s : Store}
    (h : (getA (SUMMARY_FILE clade_dir) s.files).isSome) :
    create_summary_file clade_dir s = s := by
  unfold create_summary_file
  rw [if_pos h]

/-! ### Index soundness through one append -/

theorem mem_loadIds_of_extend {x f : String} {hdr : Option String}
    {F Fx : List (String × List String)} (he : filesExtend F Fx)
    (hm : x ∈ loadIds hdr ((getA f F).getD [])) :
    x ∈ loadIds hdr ((getA f Fx).getD []) := by
  obtain ⟨⟨t, ht⟩, _⟩ := he f
  rw [ht]
  exact mem_loadIds_mono hm

theorem coveredSample_extend {clade_dir : String} {contigs_dict : List (String × String)}
    {oracle : String → String → ClassifierOutcome}
    {F Fx : List (String × List String)} {e : String × String × String}
    (he : filesExtend F Fx) (hc : coveredSample clade_dir contigs_dict oracle F e) :
    coveredSample clade_dir contigs_dict oracle Fx e := by
  intro rows clade hrows hparse hcl
  obtain ⟨h1, h2, h3⟩ := hc rows clade hrows hparse hcl
  exact ⟨mem_loadIds_of_extend he h1, mem_loadIds_of_extend he h2,
    fun p hp hpne => mem_loadIds_of_extend he (h3 p hp hpne)⟩

theorem loadIds_snoc_keep {hdr : Option String} {line : String} (L : List String)
    (h1 : strip line ≠ "") (h2 : matchesHeader hdr line = false) :
    loadIds hdr (L ++ [line]) = loadIds hdr L ++ [firstField line] := by
  rw [loadIds_append, loadIds_keep h1 h2]

theorem IndexSound_load {clade_dir : String} {s : Store} {f : String} {hdr : Option String}
    (hhdr : hdr = hdrFor clade_dir f) (hs : IndexSound clade_dir s) :
    IndexSound clade_dir
      (Store.mk s.files (setAssoc f (loadIds hdr (linesOf s f)) s.file_written_ids)) := by
  intro g ids' hg x hx hgood
  by_cases hgf : g = f
  · subst hgf
    simp only [getA_setAssoc_self] at hg
    rcases Option.some.inj hg with rfl
    subst hhdr
    exact hx
  · simp only [getA_setAssoc_ne _ hgf] at hg
    exact hs g ids' hg x hx hgood

theorem IndexSound_commit {clade_dir : String} {s : Store} {f line id : String}
    {hdr : Option String} {ids : List String}
    (hhdr : hdr = hdrFor clade_dir f) (hs : IndexSound clade_dir s)
    (hcontrib : goodId id → strip line ≠ "" ∧ matchesHeader hdr line = false ∧
      firstField line = id)
    (hids : ∀ x ∈ ids, goodId x → x ∈ loadIds hdr (linesOf s f)) :
    IndexSound clade_dir
      (Store.mk (setAssoc f (linesOf s f ++ [line]) s.files)
        (setAssoc f (ids ++ [id]) s.file_written_ids)) := by
  intro g ids' hg x hx hgood
  by_cases hgf : g = f
  · subst hgf
    simp only [getA_setAssoc_self] at hg
    rcases Option.some.inj hg with rfl
    subst hhdr
    simp only [linesOf, getA_setAssoc_self, Option.getD_some]
    rcases List.mem_append.mp hx with hx1 | hx2
    · exact mem_loadIds_mono (hids x hx1 hgood)
    · have hxid : x = id := List.mem_singleton.mp hx2
      subst hxid
      obtain ⟨c1, c2, c3⟩ := hcontrib hgood
      rw [loadIds_snoc_keep _ c1 c2, c3]
      simp
  · simp only [getA_setAssoc_ne _ hgf] at hg
    simp only [linesOf, getA_setAssoc_ne _ hgf]
    exact hs g ids' hg x hx hgood

theorem append_step {clade_dir : String} {s : Store} {f line id : String}
    {hdr : Option String} (hhdr : hdr = hdrFor clade_dir f)
    (hs : IndexSound clade_dir s)
    (hcontrib : goodId id → strip line ≠ "" ∧ matchesHeader hdr line = false ∧
      firstField line = id) :
    IndexSound clade_dir (append_line_if_not_exists s f line id hdr).1 ∧
      filesExtend s.files (append_line_if_not_exists s f line id hdr).1.files ∧
      (goodId id →
        id ∈ loadIds hdr (linesOf (append_line_if_not_exists s f line id hdr).1 f)) := by
  subst hhdr
  refine ⟨?_, append_filesExtend s f line id _, ?_⟩
  · rcases hl : getA f s.file_written_ids with _ | ids
    · by_cases hm : id ∈ loadIds (hdrFor clade_dir f) (linesOf s f)
      · rw [append_fresh_skip hl hm]
        exact IndexSound_load rfl hs
      · rw [append_fresh_commit hl hm]
        exact IndexSound_commit rfl hs hcontrib (fun x hx _ => hx)
    · by_cases hm : id ∈ ids
      · rw [append_loaded_skip hl hm]
        exact hs
      · rw [append_loaded_commit hl hm]
        exact IndexSound_commit rfl hs hcontrib (fun x hx hgood => hs f ids hl x hx hgood)
  · intro hgood
    obtain ⟨c1, c2, c3⟩ := hcontrib hgood
    rcases hl : getA f s.file_written_ids with _ | ids
    · by_cases hm : id ∈ loadIds (hdrFor clade_dir f) (linesOf s f)
      · rw [append_fresh_skip hl hm]
        exact hm
      · rw [append_fresh_commit hl hm]
        simp only [linesOf, getA_setAssoc_self, Option.getD_some]
        rw [loadIds_snoc_keep _ c1 c2, c3]
        simp
    · by_cases hm : id ∈ ids
      · rw [append_loaded_skip hl hm]
        exact hs f ids hl id hm hgood
      · rw [append_loaded_commit hl hm]
        simp only [linesOf, getA_setAssoc_self, Option.getD_some]
        rw [loadIds_snoc_keep _ c1 c2, c3]
        simp

/-! ### Index completeness through one append (re-run case) -/

theorem append_complete_step {clade_dir : String} {F : List (String × List String)}
    {s : Store} {f line id : String} {hdr : Option String}
    (hhdr : hdr = hdrFor clade_dir f) (hFs : s.files = F)
    (hC : IndexComplete clade_dir F s)
    (hmem : id ∈ loadIds hdr ((getA f F).getD [])) :
    (append_line_if_not_exists s f line id hdr).1.files = F ∧
      IndexComplete clade_dir F (append_line_if_not_exists s f line id hdr).1 := by
  subst hhdr
  rcases hl : getA f s.file_written_ids with _ | ids
  · have hm : id ∈ loadIds (hdrFor clade_dir f) (linesOf s f) := by
      unfold linesOf
      rw [hFs]
      exact hmem
    rw [append_fresh_skip hl hm]
    refine ⟨hFs, ?_⟩
    intro g ids' hg x hx
    by_cases hgf : g = f
    · subst hgf
      simp only [getA_setAssoc_self] at hg
      rcases Option.some.inj hg with rfl
      unfold linesOf
      rw [hFs]
      exact hx
    · simp only [getA_setAssoc_ne _ hgf] at hg
      exact hC g ids' hg x hx
  · have hm : id ∈ ids := hC f ids hl id hmem
    rw [append_loaded_skip hl hm]
    exact ⟨hFs, hC⟩

/-! ### Reduction equations for process_sample -/

theorem process_sample_fail_fst {clade_dir : String} {contigs_dict : List (String × String)}
    {oracle : String → String → ClassifierOutcome} {id r1 r2 : String}
    (h : run_auriclass (oracle id r1) = none) (s : Store) :
    (process_sample clade_dir contigs_dict oracle s id r1 r2).1 = s := by
  simp only [process_sample, h]

theorem process_sample_fail_msg {clade_dir : String} {contigs_dict : List (String × String)}
    {oracle : String → String → ClassifierOutcome} {id r1 r2 : String}
    (h : run_auriclass (oracle id r1) = none) (s : Store) :
    ("Skipping " ++ id ++ " due to auriclass error.") ∈
      (process_sample clade_dir contigs_dict oracle s id r1 r2).2 := by
  simp only [process_sample, h]
  simp

theorem process_sample_noparse_fst {clade_dir : String}
    {contigs_dict : List (String × String)}
    {oracle : String → String → ClassifierOutcome} {id r1 r2 : String}
    {rows : List (List String)}
    (hrows : run_auriclass (oracle id r1) = some rows)
    (hparse : parse_report rows = none) (s : Store) :
    (process_sample clade_dir contigs_dict oracle s id r1 r2).1 = s := by
  simp only [process_sample, hrows, hparse]

theorem process_sample_badclade_fst {clade_dir : String}
    {contigs_dict : List (String × String)}
    {oracle : String → String → ClassifierOutcome} {id r1 r2 clade : String}
    {rows : List (List String)}
    (hrows : run_auriclass (oracle id r1) = some rows)
    (hparse : parse_report rows = some clade)
    (hcl : clade ∉ allowed_clades) (s : Store) :
    (process_sample clade_dir contigs_dict oracle s id r1 r2).1 = s := by
  simp only [process_sample, hrows, hparse]
  rw [if_neg hcl]

theorem process_sample_badclade_msg {clade_dir : String}
    {contigs_dict : List (String × String)}
    {oracle : String → String → ClassifierOutcome} {id r1 r2 clade : String}
    {rows : List (List String)}
    (hrows : run_auriclass (oracle id r1) = some rows)
    (hparse : parse_report rows = some clade)
    (hcl : clade ∉ allowed_clades) (s : Store) :
    ("Warning: Clade " ++ clade ++ " for " ++ id ++
        " is not in the allowed list. Skipping sample.") ∈
      (process_sample clade_dir contigs_dict oracle s id r1 r2).2 := by
  simp only [process_sample, hrows, hparse]
  rw [if_neg hcl]
  simp

theorem process_sample_commit_nocontigs {clade_dir : String}
    {contigs_dict : List (String × String)}
    {oracle : String → String → ClassifierOutcome} {id r1 r2 clade : String}
    {rows : List (List String)}
    (hrows : run_auriclass (oracle id r1) = some rows)
    (hparse : parse_report rows = some clade)
    (hcl : clade ∈ allowed_clades)
    (hctg : getA id contigs_dict = none) (s : Store) :
    process_sample clade_dir contigs_dict oracle s id r1 r2 =
      (let a1 := append_line_if_not_exists s (clade_reads_file clade_dir clade)
        (id ++ "\t" ++ r1 ++ "\t" ++ r2) id none
      let a3 := append_line_if_not_exists a1.1 (SUMMARY_FILE clade_dir)
        (id ++ "\t" ++ clade) id (some summary_header)
      (a3.1,
        (("Processing sample " ++ id ++ " ...") ::
            run_auriclass_log (oracle id r1) id r1 ++ ["Extracted clade: " ++ clade]) ++
          a1.2.2 ++ ["Warning: No contigs entry found for " ++ id] ++ a3.2.2 ++
          ["Assigned sample " ++ id ++ " to " ++ clade])) := by
  simp only [process_sample, hrows, hparse, hctg]
  rw [if_pos hcl]

theorem process_sample_commit_emptycontigs {clade_dir : String}
    {contigs_dict : List (String × String)}
    {oracle : String → String → ClassifierOutcome} {id r1 r2 clade : String}
    {rows : List (List String)}
    (hrows : run_auriclass (oracle id r1) = some rows)
    (hparse : parse_report rows = some clade)
    (hcl : clade ∈ allowed_clades)
    (hctg : getA id contigs_dict = some "") (s : Store) :
    process_sample clade_dir contigs_dict oracle s id r1 r2 =
      (let a1 := append_line_if_not_exists s (clade_reads_file clade_dir clade)
        (id ++ "\t" ++ r1 ++ "\t" ++ r2) id none
      let a3 := append_line_if_not_exists a1.1 (SUMMARY_FILE clade_dir)
        (id ++ "\t" ++ clade) id (some summary_header)
      (a3.1,
        (("Processing sample " ++ id ++ " ...") ::
            run_auriclass_log (oracle id r1) id r1 ++ ["Extracted clade: " ++ clade]) ++
          a1.2.2 ++ ["Warning: No contigs entry found for " ++ id] ++ a3.2.2 ++
          ["Assigned sample " ++ id ++ " to " ++ clade])) := by
  simp only [process_sample, hrows, hparse, hctg]
  rw [if_pos hcl]
  simp

theorem process_sample_commit_contigs {clade_dir : String}
    {contigs_dict : List (String × String)}
    {oracle : String → String → ClassifierOutcome} {id r1 r2 clade p : String}
    {rows : List (List String)}
    (hrows : run_auriclass (oracle id r1) = some rows)
    (hparse : parse_report rows = some clade)
    (hcl : clade ∈ allowed_clades)
    (hctg : getA id contigs_dict = some p) (hp : p ≠ "") (s : Store) :
    process_sample clade_dir contigs_dict oracle s id r1 r2 =
      (let a1 := append_line_if_not_exists s (clade_reads_file clade_dir clade)
        (id ++ "\t" ++ r1 ++ "\t" ++ r2) id none
      let a2 := append_line_if_not_exists a1.1 (clade_contigs_file clade_dir clade)
        (id ++ "\t" ++ p) id none
      let a3 := append_line_if_not_exists a2.1 (SUMMARY_FILE clade_dir)
        (id ++ "\t" ++ clade) id (some summary_header)
      (a3.1,
        (("Processing sample " ++ id ++ " ...") ::
            run_auriclass_log (oracle id r1) id r1 ++ ["Extracted clade: " ++ clade]) ++
          a1.2.2 ++ a2.2.2 ++ a3.2.2 ++
          ["Assigned sample " ++ id ++ " to " ++ clade])) := by
  simp only [process_sample, hrows, hparse, hctg]
  rw [if_pos hcl, if_neg hp]

/-! ### Contribution of the appended lines to the reload index -/

theorem contrib_none {id : String} (hid : goodId id) (rest : String) :
    strip (id ++ "\t" ++ rest) ≠ "" ∧
      matchesHeader none (id ++ "\t" ++ rest) = false ∧
      firstField (id ++ "\t" ++ rest) = id :=
  ⟨strip_line_ne_empty hid rest, rfl, by rw [firstField_line hid.2.2.1, hid.2.1]⟩

theorem contrib_summary {id clade : String} (hid : goodId id)
    (hc : clade ∈ allowed_clades) :
    strip (id ++ "\t" ++ clade) ≠ "" ∧
      matchesHeader (some summary_header) (id ++ "\t" ++ clade) = false ∧
      firstField (id ++ "\t" ++ clade) = id :=
  ⟨strip_line_ne_empty hid clade, summary_line_not_header hid hc,
    by rw [firstField_line hid.2.2.1, hid.2.1]⟩

theorem reads_line_shape (id r1 r2 : String) :
    id ++ "\t" ++ r1 ++ "\t" ++ r2 = id ++ "\t" ++ (r1 ++ "\t" ++ r2) := by
  simp [String.append_assoc]

/-! ### One processed sample: first run -/

set_option maxHeartbeats 1600000 in
theorem process_sample_step {clade_dir : String} {contigs_dict : List (String × String)}
    {oracle : String → String → ClassifierOutcome} {s : Store} {id r1 r2 : String}
    (hs : IndexSound clade_dir s) (hid : goodId id) :
    IndexSound clade_dir (process_sample clade_dir contigs_dict oracle s id r1 r2).1 ∧
      filesExtend s.files (process_sample clade_dir contigs_dict oracle s id r1 r2).1.files ∧
      coveredSample clade_dir contigs_dict oracle
        (process_sample clade_dir contigs_dict oracle s id r1 r2).1.files (id, r1, r2) := by
  cases houtc : run_auriclass (oracle id r1) with
  | none =>
    rw [process_sample_fail_fst houtc]
    refine ⟨hs, filesExtend_refl _, ?_⟩
    intro rows clade hrows
    rw [houtc] at hrows
    cases hrows
  | some rows =>
    cases hparse : parse_report rows with
    | none =>
      rw [process_sample_noparse_fst houtc hparse]
      refine ⟨hs, filesExtend_refl _, ?_⟩
      intro rows' clade hrows' hparse'
      rw [houtc] at hrows'
      rcases Option.some.inj hrows' with rfl
      rw [hparse] at hparse'
      cases hparse'
    | some clade =>
      by_cases hcl : clade ∈ allowed_clades
      · obtain ⟨hne1, hne2, hne3⟩ := target_files_ne clade_dir hcl
        have hhdr_r : (none : Option String) =
            hdrFor clade_dir (clade_reads_file clade_dir clade) := by
          unfold hdrFor
          rw [if_neg hne1]
        have hhdr_c : (none : Option String) =
            hdrFor clade_dir (clade_contigs_file clade_dir clade) := by
          unfold hdrFor
          rw [if_neg hne2]
        have hhdr_s : (some summary_header) = hdrFor clade_dir (SUMMARY_FILE clade_dir) := by
          unfold hdrFor
          rw [if_pos rfl]
        have hcontrib_r : goodId id →
            strip (id ++ "\t" ++ r1 ++ "\t" ++ r2) ≠ "" ∧
              matchesHeader none (id ++ "\t" ++ r1 ++ "\t" ++ r2) = false ∧
              firstField (id ++ "\t" ++ r1 ++ "\t" ++ r2) = id := by
          intro hg
          rw [reads_line_shape]
          exact contrib_none hg (r1 ++ "\t" ++ r2)
        have hcontrib_s : goodId id →
            strip (id ++ "\t" ++ clade) ≠ "" ∧
              matchesHeader (some summary_header) (id ++ "\t" ++ clade) = false ∧
              firstField (id ++ "\t" ++ clade) = id :=
          fun hg => contrib_summary hg hcl
        rcases hctg : getA id contigs_dict with _ | p
        · rw [process_sample_commit_nocontigs houtc hparse hcl hctg]
          obtain ⟨hs1, he1, hm1⟩ := append_step hhdr_r hs hcontrib_r
          obtain ⟨hs3, he3, hm3⟩ := append_step hhdr_s hs1 hcontrib_s
          refine ⟨hs3, filesExtend_trans he1 he3, ?_⟩
          intro rows' clade' hrows' hparse' hcl'
          rw [houtc] at hrows'
          rcases Option.some.inj hrows' with rfl
          rw [hparse] at hparse'
          rcases Option.some.inj hparse' with rfl
          refine ⟨mem_loadIds_of_extend he3 (hm1 hid), hm3 hid, ?_⟩
          intro p hp
          rw [hctg] at hp
          cases hp
        · by_cases hp : p = ""
          · subst hp
            rw [process_sample_commit_emptycontigs houtc hparse hcl hctg]
            obtain ⟨hs1, he1, hm1⟩ := append_step hhdr_r hs hcontrib_r
            obtain ⟨hs3, he3, hm3⟩ := append_step hhdr_s hs1 hcontrib_s
            refine ⟨hs3, filesExtend_trans he1 he3, ?_⟩
            intro rows' clade' hrows' hparse' hcl'
            rw [houtc] at hrows'
            rcases Option.some.inj hrows' with rfl
            rw [hparse] at hparse'
            rcases Option.some.inj hparse' with rfl
            refine ⟨mem_loadIds_of_extend he3 (hm1 hid), hm3 hid, ?_⟩
            intro p' hp' hp'ne
            rw [hctg] at hp'
            rcases Option.some.inj hp' with rfl
            exact absurd rfl hp'ne
          · rw [process_sample_commit_contigs houtc hparse hcl hctg hp]
            have hcontrib_c : goodId id →
                strip (id ++ "\t" ++ p) ≠ "" ∧
                  matchesHeader none (id ++ "\t" ++ p) = false ∧
                  firstField (id ++ "\t" ++ p) = id :=
              fun hg => contrib_none hg p
            obtain ⟨hs1, he1, hm1⟩ := append_step hhdr_r hs hcontrib_r
            obtain ⟨hs2, he2, hm2⟩ := append_step hhdr_c hs1 hcontrib_c
            obtain ⟨hs3, he3, hm3⟩ := append_step hhdr_s hs2 hcontrib_s
            refine ⟨hs3, filesExtend_trans he1 (filesExtend_trans he2 he3), ?_⟩
            intro rows' clade' hrows' hparse' hcl'
            rw [houtc] at hrows'
            rcases Option.some.inj hrows' with rfl
            rw [hparse] at hparse'
            rcases Option.some.inj hparse' with rfl
            refine ⟨mem_loadIds_of_extend he3 (mem_loadIds_of_extend he2 (hm1 hid)),
              hm3 hid, ?_⟩
            intro p' hp' _
            rw [hctg] at hp'
            rcases Option.some.inj hp' with rfl
            exact mem_loadIds_of_extend he3 (hm2 hid)
      · rw [process_sample_badclade_fst houtc hparse hcl]
        refine ⟨hs, filesExtend_refl _, ?_⟩
        intro rows' clade' hrows' hparse' hcl'
        rw [houtc] at hrows'
        rcases Option.some.inj hrows' with rfl
        rw [hparse] at hparse'
        rcases Option.some.inj hparse' with rfl
        exact absurd hcl' hcl

/-! ### One processed sample: re-run writes nothing -/

set_option maxHeartbeats 1600000 in
theorem process_sample_noop {clade_dir : String} {contigs_dict : List (String × String)}
    {oracle : String → String → ClassifierOutcome}
    {F : List (String × List String)} {s : Store} {id r1 r2 : String}
    (hFs : s.files = F) (hC : IndexComplete clade_dir F s)
    (hcov : coveredSample clade_dir contigs_dict oracle F (id, r1, r2)) :
    (process_sample clade_dir contigs_dict oracle s id r1 r2).1.files = F ∧
      IndexComplete clade_dir F
        (process_sample clade_dir contigs_dict oracle s id r1 r2).1 := by
  cases houtc : run_auriclass (oracle id r1) with
  | none =>
    rw [process_sample_fail_fst houtc]
    exact ⟨hFs, hC⟩
  | some rows =>
    cases hparse : parse_report rows with
    | none =>
      rw [process_sample_noparse_fst houtc hparse]
      exact ⟨hFs, hC⟩
    | some clade =>
      by_cases hcl : clade ∈ allowed_clades
      · obtain ⟨hne1, hne2, hne3⟩ := target_files_ne clade_dir hcl
        have hhdr_r : (none : Option String) =
            hdrFor clade_dir (clade_reads_file clade_dir clade) := by
          unfold hdrFor
          rw [if_neg hne1]
        have hhdr_c : (none : Option String) =
            hdrFor clade_dir (clade_contigs_file clade_dir clade) := by
          unfold hdrFor
          rw [if_neg hne2]
        have hhdr_s : (some summary_header) = hdrFor clade_dir (SUMMARY_FILE clade_dir) := by
          unfold hdrFor
          rw [if_pos rfl]
        obtain ⟨m1, m2, m3⟩ := hcov rows clade houtc hparse hcl
        rcases hctg : getA id contigs_dict with _ | p
        · rw [process_sample_commit_nocontigs houtc hparse hcl hctg]
          obtain ⟨hf1, hc1⟩ := append_complete_step hhdr_r hFs hC m1
          obtain ⟨hf3, hc3⟩ := append_complete_step hhdr_s hf1 hc1 m2
          exact ⟨hf3, hc3⟩
        · by_cases hp : p = ""
          · subst hp
            rw [process_sample_commit_emptycontigs houtc hparse hcl hctg]
            obtain ⟨hf1, hc1⟩ := append_complete_step hhdr_r hFs hC m1
            obtain ⟨hf3, hc3⟩ := append_complete_step hhdr_s hf1 hc1 m2
            exact ⟨hf3, hc3⟩
          · rw [process_sample_commit_contigs houtc hparse hcl hctg hp]
            have m3' := m3 p hctg hp
            obtain ⟨hf1, hc1⟩ := append_complete_step hhdr_r hFs hC m1
            obtain ⟨hf2, hc2⟩ := append_complete_step hhdr_c hf1 hc1 m3'
            obtain ⟨hf3, hc3⟩ := append_complete_step hhdr_s hf2 hc2 m2
            exact ⟨hf3, hc3⟩
      · rw [process_sample_badclade_fst houtc hparse hcl]
        exact ⟨hFs, hC⟩

/-! ### The pipeline fold -/

theorem run_pipeline_fst (clade_dir : String)
    (oracle : String → String → ClassifierOutcome)
    (reads : List (String × String × String)) (contigs : List (String × String))
    (s : Store) :
    (run_pipeline clade_dir oracle reads contigs s).1 =
      reads.foldl
        (fun st e => (process_sample clade_dir contigs oracle st e.1 e.2.1 e.2.2).1)
        (create_summary_file clade_dir s) := by
  unfold run_pipeline
  suffices h : ∀ (l : List (String × String × String)) (st : Store) (m : List String),
      (l.foldl (fun acc e =>
        ((process_sample clade_dir contigs oracle acc.1 e.1 e.2.1 e.2.2).1,
          acc.2 ++ (process_sample clade_dir contigs oracle acc.1 e.1 e.2.1 e.2.2).2))
        (st, m)).1 =
      l.foldl (fun st e => (process_sample clade_dir contigs oracle st e.1 e.2.1 e.2.2).1)
        st by
    exact h reads _ []
  intro l
  induction l with
  | nil => intro st m; rfl
  | cons e es ih =>
    intro st m
    exact ih _ _

theorem run_fold_sound {clade_dir : String} {contigs : List (String × String)}
    {oracle : String → String → ClassifierOutcome} :
    ∀ (reads : List (String × String × String)) (s : Store),
      IndexSound clade_dir s →
      (∀ e ∈ reads, goodId e.1) →
      IndexSound clade_dir
        (reads.foldl
          (fun st e => (process_sample clade_dir contigs oracle st e.1 e.2.1 e.2.2).1) s) ∧
      filesExtend s.files
        (reads.foldl
          (fun st e => (process_sample clade_dir contigs oracle st e.1 e.2.1 e.2.2).1)
          s).files ∧
      ∀ e ∈ reads, coveredSample clade_dir contigs oracle
        (reads.foldl
          (fun st e => (process_sample clade_dir contigs oracle st e.1 e.2.1 e.2.2).1)
          s).files e := by
  intro reads
  induction reads with
  | nil =>
    intro s hs _
    exact ⟨hs, filesExtend_refl _, by simp⟩
  | cons e es ih =>
    intro s hs hgood
    have hge : goodId e.1 := hgood e (by simp)
    obtain ⟨hs1, he1, hcov1⟩ :=
      @process_sample_step clade_dir contigs oracle s e.1 e.2.1 e.2.2 hs hge
    obtain ⟨hsf, hef, hcovf⟩ := ih _ hs1 (fun x hx => hgood x (by simp [hx]))
    rw [List.foldl_cons]
    refine ⟨hsf, filesExtend_trans he1 hef, ?_⟩
    intro e' he'
    rcases List.mem_cons.mp he' with rfl | hes
    · exact coveredSample_extend hef hcov1
    · exact hcovf e' hes

theorem run_fold_noop {clade_dir : String} {contigs : List (String × String)}
    {oracle : String → String → ClassifierOutcome}
    {F : List (String × List String)} :
    ∀ (reads : List (String × String × String)) (s : Store),
      s.files = F → IndexComplete clade_dir F s →
      (∀ e ∈ reads, coveredSample clade_dir contigs oracle F e) →
      (reads.foldl
        (fun st e => (process_sample clade_dir contigs oracle st e.1 e.2.1 e.2.2).1)
        s).files = F ∧
      IndexComplete clade_dir F
        (reads.foldl
          (fun st e => (process_sample clade_dir contigs oracle st e.1 e.2.1 e.2.2).1)
          s) := by
  intro reads
  induction reads with
  | nil =>
    intro s hFs hC _
    exact ⟨hFs, hC⟩
  | cons e es ih =>
    intro s hFs hC hcov
    obtain ⟨hf1, hc1⟩ :=
      @process_sample_noop clade_dir contigs oracle F s e.1 e.2.1 e.2.2 hFs hC
        (hcov e (by simp))
    rw [List.foldl_cons]
    exact ih _ hf1 hc1 (fun x hx => hcov x (by simp [hx]))

/-! ### Initial states of a run -/

theorem IndexSound_init (clade_dir : String) (F : List (String × List String)) :
    IndexSound clade_dir (Store.mk F []) := by
  intro g ids hg
  simp [getA] at hg

theorem IndexComplete_init (clade_dir : String) (F : List (String × List String)) :
    IndexComplete clade_dir F (Store.mk F []) := by
  intro g ids hg
  simp [getA] at hg

theorem create_summary_IndexSound {clade_dir : String} {s : Store}
    (hs : IndexSound clade_dir s) :
    IndexSound clade_dir (create_summary_file clade_dir s) := by
  unfold create_summary_file
  by_cases h : (getA (SUMMARY_FILE clade_dir) s.files).isSome
  · rw [if_pos h]
    exact hs
  · rw [if_neg h]
    intro g ids hg x hx hgood
    by_cases hgf : g = SUMMARY_FILE clade_dir
    · subst hgf
      simp only [getA_setAssoc_self] at hg
      rcases Option.some.inj hg with rfl
      cases hx
    · simp only [getA_setAssoc_ne _ hgf] at hg
      simp only [linesOf, getA_setAssoc_ne _ hgf]
      exact hs g ids hg x hx hgood

/-! ### Claim C2 -/

/-- Claim C2 as stated is false: with an isolate identifier carrying leading
whitespace, the reload of the membership index strips the first field, so a
second identical run duplicates the rows. Concretely, running the pipeline
twice on the single isolate " S1" (classified Clade I) does not leave the
ledger files of the first run unchanged. -/
theorem claim_C2_counterexample :
    (run_pipeline "out"
        (fun _ _ => ClassifierOutcome.report [["Sample", "Clade"], ["x", "Clade I"]])
        [(" S1", "r1", "r2")] []
        (Store.mk
          (run_pipeline "out"
            (fun _ _ => ClassifierOutcome.report [["Sample", "Clade"], ["x", "Clade I"]])
            [(" S1", "r1", "r2")] [] (Store.mk [] [])).1.files
          [])).1.files ≠
      (run_pipeline "out"
        (fun _ _ => ClassifierOutcome.report [["Sample", "Clade"], ["x", "Clade I"]])
        [(" S1", "r1", "r2")] [] (Store.mk [] [])).1.files := by
  decide

/-- Claim C2 (amended): when every isolate identifier in the reads table is
nonempty, free of tab and line-break characters, and has no leading or
trailing whitespace (in the sense of Python str.strip), running the full
pipeline a second time over identical inputs (reads table, contigs table,
classifier outcomes), starting from the ledger directory the first run
produced, leaves every ledger file unchanged: the second run appends no
row and duplicates no identifier. -/
theorem claim_C2_run_twice_eq_run_once (clade_dir : String)
    (oracle : String → String → ClassifierOutcome)
    (reads : List (String × String × String)) (contigs : List (String × String))
    (F0 : List (String × List String))
    (hgood : ∀ e ∈ reads, goodId e.1) :
    (run_pipeline clade_dir oracle reads contigs
        (Store.mk
          (run_pipeline clade_dir oracle reads contigs (Store.mk F0 [])).1.files
          [])).1.files =
      (run_pipeline clade_dir oracle reads contigs (Store.mk F0 [])).1.files := by
  have hsound0 : IndexSound clade_dir (create_summary_file clade_dir (Store.mk F0 [])) :=
    create_summary_IndexSound (IndexSound_init clade_dir F0)
  obtain ⟨hsoundF, hextF, hcovF⟩ :=
    @run_fold_sound clade_dir contigs oracle
      reads (create_summary_file clade_dir (Store.mk F0 [])) hsound0 hgood
  have hF1 : (run_pipeline clade_dir oracle reads contigs (Store.mk F0 [])).1.files =
      (reads.foldl
        (fun st e => (process_sample clade_dir contigs oracle st e.1 e.2.1 e.2.2).1)
        (create_summary_file clade_dir (Store.mk F0 []))).files := by
    rw [run_pipeline_fst]
  have hsumF : (getA (SUMMARY_FILE clade_dir)
      (reads.foldl
        (fun st e => (process_sample clade_dir contigs oracle st e.1 e.2.1 e.2.2).1)
        (create_summary_file clade_dir (Store.mk F0 []))).files).isSome :=
    (hextF (SUMMARY_FILE clade_dir)).2 (create_summary_isSome clade_dir (Store.mk F0 []))
  rw [hF1]
  set F := (reads.foldl
    (fun st e => (process_sample clade_dir contigs oracle st e.1 e.2.1 e.2.2).1)
    (create_summary_file clade_dir (Store.mk F0 []))).files with hFdef
  have hcs2 : create_summary_file clade_dir (Store.mk F []) = Store.mk F [] :=
    create_summary_of_isSome hsumF
  obtain ⟨hfiles2, _⟩ :=
    @run_fold_noop clade_dir contigs oracle
      F reads (Store.mk F []) rfl (IndexComplete_init clade_dir F) hcovF
  rw [run_pipeline_fst, hcs2]
  exact hfiles2

/-- Claim C2 witness: a concrete well-formed run where the second pipeline
pass leaves the ledger files unchanged. -/
theorem claim_C2_witness :
    (run_pipeline "out"
        (fun _ _ => ClassifierOutcome.report [["Sample", "Clade"], ["x", "Clade I"]])
        [("S1", "r1", "r2")] [("S1", "c1")]
        (Store.mk
          (run_pipeline "out"
            (fun _ _ => ClassifierOutcome.report [["Sample", "Clade"], ["x", "Clade I"]])
            [("S1", "r1", "r2")] [("S1", "c1")] (Store.mk [] [])).1.files
          [])).1.files =
      (run_pipeline "out"
        (fun _ _ => ClassifierOutcome.report [["Sample", "Clade"], ["x", "Clade I"]])
        [("S1", "r1", "r2")] [("S1", "c1")] (Store.mk [] [])).1.files :=
  claim_C2_run_twice_eq_run_once "out" _ _ _ [] (by decide)

/-! ### Claim C1 machinery: uniqueness of first fields under append sequences -/

theorem runAppends_cons (s : Store) (op : AppendOp) (ops : List AppendOp) :
    runAppends s (op :: ops) =
      runAppends (append_line_if_not_exists s op.filename op.line op.isolate_id
        op.header_line).1 ops := rfl

theorem countP_singleton_raw (line x : String) :
    ([line].countP (fun l => firstFieldRaw l == x)) =
      if firstFieldRaw line = x then 1 else 0 := by
  rw [List.countP_cons]
  simp [List.countP_nil]

theorem uniq_invariant {f : String} :
    ∀ (ops : List AppendOp) (s : Store),
      (∀ op ∈ ops, op.filename = f → firstFieldRaw op.line = op.isolate_id) →
      ((getA f s.files = none ∧ getA f s.file_written_ids = none) ∨
        (∃ ids, getA f s.file_written_ids = some ids ∧
          (∀ x, ((linesOf s f).countP (fun l => firstFieldRaw l == x)) ≤ 1) ∧
          (∀ x, x ∉ ids →
            ((linesOf s f).countP (fun l => firstFieldRaw l == x)) = 0))) →
      ((getA f (runAppends s ops).files = none ∧
          getA f (runAppends s ops).file_written_ids = none) ∨
        (∃ ids, getA f (runAppends s ops).file_written_ids = some ids ∧
          (∀ x, ((linesOf (runAppends s ops) f).countP
            (fun l => firstFieldRaw l == x)) ≤ 1) ∧
          (∀ x, x ∉ ids →
            ((linesOf (runAppends s ops) f).countP
              (fun l => firstFieldRaw l == x)) = 0))) := by
  intro ops
  induction ops with
  | nil => intro s _ h; exact h
  | cons op ops ih =>
    intro s hops hinv
    rw [runAppends_cons]
    apply ih _ (fun o ho hf => hops o (List.mem_cons_of_mem _ ho) hf)
    by_cases hf : op.filename = f
    · have hline : firstFieldRaw op.line = op.isolate_id := hops op (by simp) hf
      rw [hf]
      rcases hinv with ⟨h1, h2⟩ | ⟨ids, h1, h2, h3⟩
      · have hlines0 : linesOf s f = [] := by
          unfold linesOf
          rw [h1]
          rfl
        have hm : op.isolate_id ∉ loadIds op.header_line (linesOf s f) := by
          rw [hlines0]
          simp [loadIds]
        rw [append_fresh_commit h2 hm]
        right
        refine ⟨loadIds op.header_line (linesOf s f) ++ [op.isolate_id],
          by simp [getA_setAssoc_self], ?_, ?_⟩
        · intro x
          simp only [linesOf, getA_setAssoc_self, Option.getD_some]
          rw [show linesOf s f = (getA f s.files).getD [] from rfl] at hlines0
          rw [hlines0, List.nil_append, countP_singleton_raw]
          by_cases hx : firstFieldRaw op.line = x <;> simp [hx]
        · intro x hx
          simp only [linesOf, getA_setAssoc_self, Option.getD_some]
          rw [show linesOf s f = (getA f s.files).getD [] from rfl] at hlines0
          rw [hlines0, List.nil_append, countP_singleton_raw]
          rw [if_neg]
          intro he
          apply hx
          rw [hline] at he
          rw [← he]
          simp [hlines0, loadIds]
      · by_cases hm : op.isolate_id ∈ ids
        · rw [append_loaded_skip h1 hm]
          right
          exact ⟨ids, h1, h2, h3⟩
        · rw [append_loaded_commit h1 hm]
          right
          refine ⟨ids ++ [op.isolate_id], by simp [getA_setAssoc_self], ?_, ?_⟩
          · intro x
            simp only [linesOf, getA_setAssoc_self, Option.getD_some]
            rw [List.countP_append, countP_singleton_raw]
            by_cases hx : x = op.isolate_id
            · subst hx
              have := h3 op.isolate_id hm
              rw [show linesOf s f = (getA f s.files).getD [] from rfl] at this
              rw [this, hline]
              simp
            · rw [if_neg (by rw [hline]; exact fun e => hx e.symm)]
              have := h2 x
              rw [show linesOf s f = (getA f s.files).getD [] from rfl] at this
              omega
          · intro x hx
            have hx1 : x ∉ ids := fun h => hx (List.mem_append_left _ h)
            have hx2 : x ≠ op.isolate_id := fun h => hx (by simp [h])
            simp only [linesOf, getA_setAssoc_self, Option.getD_some]
            rw [List.countP_append, countP_singleton_raw,
              if_neg (by rw [hline]; exact fun e => hx2 e.symm)]
            have := h3 x hx1
            rw [show linesOf s f = (getA f s.files).getD [] from rfl] at this
            omega
    · have hne : f ≠ op.filename := fun e => hf e.symm
      have hfiles := @append_files_other s op.filename op.line op.isolate_id f
        op.header_line hne
      have hids := @append_ids_other s op.filename op.line op.isolate_id f
        op.header_line hne
      have hlines : linesOf (append_line_if_not_exists s op.filename op.line
          op.isolate_id op.header_line).1 f = linesOf s f := by
        unfold linesOf
        rw [hfiles]
      rcases hinv with ⟨h1, h2⟩ | ⟨ids, h1, h2, h3⟩
      · left
        rw [hfiles, hids]
        exact ⟨h1, h2⟩
      · right
        refine ⟨ids, by rw [hids]; exact h1, ?_, ?_⟩
        · intro x
          rw [hlines]
          exact h2 x
        · intro x hx
          rw [hlines]
          exact h3 x hx

theorem mem_ids_persist {f id : String} :
    ∀ (ops : List AppendOp) (s : Store),
      (∃ ids, getA f s.file_written_ids = some ids ∧ id ∈ ids) →
      ∃ ids, getA f (runAppends s ops).file_written_ids = some ids ∧ id ∈ ids := by
  intro ops
  induction ops with
  | nil => intro s h; exact h
  | cons op ops ih =>
    intro s h
    obtain ⟨ids, hl, hm⟩ := h
    rw [runAppends_cons]
    apply ih
    by_cases hf : op.filename = f
    · rw [hf]
      by_cases hmm : op.isolate_id ∈ ids
      · rw [append_loaded_skip hl hmm]
        exact ⟨ids, hl, hm⟩
      · rw [append_loaded_commit hl hmm]
        exact ⟨ids ++ [op.isolate_id], by simp [getA_setAssoc_self],
          List.mem_append_left _ hm⟩
    · refine ⟨ids, ?_, hm⟩
      rw [append_ids_other (fun e => hf e.symm)]
      exact hl

/-! ### Claim C1 -/

/-- Claim C1: the per-file idempotency invariant of the Ledger Store. For a
ledger file created by a sequence of `append_line_if_not_exists` calls in a
run (each call appending a row whose raw first tab-delimited field is its
isolate identifier), every identifier occurs as the first field of at most
one row. Moreover a call whose identifier is already in the membership set
writes nothing and returns `false`; a committing call records the identifier
in the set; and once recorded, every later call with that identifier on that
file (after any interleaved calls) writes nothing and returns `false`. -/
theorem claim_C1_ledger_idempotency :
    (∀ (s0 : Store) (ops : List AppendOp) (f : String),
      getA f s0.files = none → getA f s0.file_written_ids = none →
      (∀ op ∈ ops, op.filename = f → firstFieldRaw op.line = op.isolate_id) →
      ∀ id, ((linesOf (runAppends s0 ops) f).countP
        (fun l => firstFieldRaw l == id)) ≤ 1) ∧
    (∀ (s : Store) (f line id : String) (hdr : Option String) (ids : List String),
      getA f s.file_written_ids = some ids → id ∈ ids →
      (append_line_if_not_exists s f line id hdr).2.1 = false ∧
        (append_line_if_not_exists s f line id hdr).1.files = s.files) ∧
    (∀ (s : Store) (f line id : String) (hdr : Option String),
      (append_line_if_not_exists s f line id hdr).2.1 = true →
      ∃ ids, getA f (append_line_if_not_exists s f line id hdr).1.file_written_ids =
        some ids ∧ id ∈ ids) ∧
    (∀ (s : Store) (f id : String),
      (∃ ids, getA f s.file_written_ids = some ids ∧ id ∈ ids) →
      ∀ (ops : List AppendOp) (line : String) (hdr : Option String),
        (append_line_if_not_exists (runAppends s ops) f line id hdr).2.1 = false ∧
          (append_line_if_not_exists (runAppends s ops) f line id hdr).1.files =
            (runAppends s ops).files) := by
  refine ⟨?_, ?_, ?_, ?_⟩
  · intro s0 ops f h1 h2 hops id
    rcases uniq_invariant ops s0 hops (Or.inl ⟨h1, h2⟩) with ⟨hf, _⟩ | ⟨ids, _, hc, _⟩
    · unfold linesOf
      rw [hf]
      simp
    · exact hc id
  · intro s f line id hdr ids hl hm
    rw [append_loaded_skip hl hm]
    exact ⟨rfl, rfl⟩
  · intro s f line id hdr htrue
    rcases hl : getA f s.file_written_ids with _ | ids
    · by_cases hm : id ∈ loadIds hdr (linesOf s f)
      · rw [append_fresh_skip hl hm] at htrue
        cases htrue
      · rw [append_fresh_commit hl hm]
        exact ⟨loadIds hdr (linesOf s f) ++ [id], by simp [getA_setAssoc_self], by simp⟩
    · by_cases hm : id ∈ ids
      · rw [append_loaded_skip hl hm] at htrue
        cases htrue
      · rw [append_loaded_commit hl hm]
        exact ⟨ids ++ [id], by simp [getA_setAssoc_self], by simp⟩
  · intro s f id h ops line hdr
    obtain ⟨ids, hl, hm⟩ := mem_ids_persist ops s h
    rw [append_loaded_skip hl hm]
    exact ⟨rfl, rfl⟩

/-- Claim C1 witness: concrete instances of the four guarantees, at a fresh
file `"f"`, a duplicate-id call sequence, and a loaded index containing
`"a"`. -/
theorem claim_C1_witness :
    ((∀ id, ((linesOf (runAppends (Store.mk [] [])
        [AppendOp.mk "f" ("a" ++ "\t" ++ "b") "a" none,
         AppendOp.mk "f" ("a" ++ "\t" ++ "c") "a" none]) "f").countP
        (fun l => firstFieldRaw l == id)) ≤ 1) ∧
      ((append_line_if_not_exists (Store.mk [] [("f", ["a"])]) "f" "a\tz" "a" none).2.1 =
          false ∧
        (append_line_if_not_exists (Store.mk [] [("f", ["a"])]) "f" "a\tz" "a"
          none).1.files = (Store.mk [] [("f", ["a"])] : Store).files) ∧
      (∃ ids, getA "f" (append_line_if_not_exists (Store.mk [] []) "f" "a\tz" "a"
          none).1.file_written_ids = some ids ∧ "a" ∈ ids) ∧
      ((append_line_if_not_exists (runAppends (Store.mk [] [("f", ["a"])]) []) "f"
          "a\tz" "a" none).2.1 = false ∧
        (append_line_if_not_exists (runAppends (Store.mk [] [("f", ["a"])]) []) "f"
          "a\tz" "a" none).1.files =
          (runAppends (Store.mk [] [("f", ["a"])]) []).files)) :=
  ⟨fun id => claim_C1_ledger_idempotency.1 (Store.mk [] []) _ "f" rfl rfl (by decide) id,
    claim_C1_ledger_idempotency.2.1 (Store.mk [] [("f", ["a"])]) "f" "a\tz" "a" none
      ["a"] (by decide) (by decide),
    claim_C1_ledger_idempotency.2.2.1 (Store.mk [] []) "f" "a\tz" "a" none (by decide),
    claim_C1_ledger_idempotency.2.2.2 (Store.mk [] [("f", ["a"])]) "f" "a"
      ⟨["a"], by decide, by decide⟩ [] "a\tz" none⟩

/-! ### Skipped samples leave the pipeline store unchanged -/

theorem run_pipeline_skip_sample {clade_dir : String} {contigs : List (String × String)}
    {oracle : String → String → ClassifierOutcome} {id r1 r2 : String}
    (hskip : ∀ s : Store, (process_sample clade_dir contigs oracle s id r1 r2).1 = s)
    (pre post : List (String × String × String)) (s : Store) :
    (run_pipeline clade_dir oracle (pre ++ (id, r1, r2) :: post) contigs s).1 =
      (run_pipeline clade_dir oracle (pre ++ post) contigs s).1 := by
  rw [run_pipeline_fst, run_pipeline_fst, List.foldl_append, List.foldl_append,
    List.foldl_cons]
  congr 1
  exact hskip _

/-! ### Claim C3 -/

/-- Claim C3: when the classifier invocation for an isolate fails (non-zero
exit status or missing report artifact, i.e. `run_auriclass` yields `None`),
the iteration writes nothing: the store (every ledger file and every
membership set) is unchanged, the skip notice is printed, and a full
pipeline run over any isolate list containing this isolate produces the same
store as the run without it — processing continues with the next isolate. -/
theorem claim_C3_classifier_failure_writes_nothing (clade_dir : String)
    (contigs : List (String × String)) (oracle : String → String → ClassifierOutcome)
    (id r1 r2 : String) (h : run_auriclass (oracle id r1) = none) :
    (∀ s : Store, (process_sample clade_dir contigs oracle s id r1 r2).1 = s) ∧
      (∀ s : Store, ("Skipping " ++ id ++ " due to auriclass error.") ∈
        (process_sample clade_dir contigs oracle s id r1 r2).2) ∧
      (∀ (pre post : List (String × String × String)) (s : Store),
        (run_pipeline clade_dir oracle (pre ++ (id, r1, r2) :: post) contigs s).1 =
          (run_pipeline clade_dir oracle (pre ++ post) contigs s).1) :=
  ⟨fun s => process_sample_fail_fst h s,
    fun s => process_sample_fail_msg h s,
    fun pre post s =>
      run_pipeline_skip_sample (fun s => process_sample_fail_fst h s) pre post s⟩

/-- Claim C3 witness: a concrete failing classifier invocation. -/
theorem claim_C3_witness :
    (∀ s : Store, (process_sample "out" []
        (fun _ _ => ClassifierOutcome.exitFailure "boom") s "S1" "r1" "r2").1 = s) ∧
      (∀ s : Store, ("Skipping " ++ "S1" ++ " due to auriclass error.") ∈
        (process_sample "out" [] (fun _ _ => ClassifierOutcome.exitFailure "boom")
          s "S1" "r1" "r2").2) ∧
      (∀ (pre post : List (String × String × String)) (s : Store),
        (run_pipeline "out" (fun _ _ => ClassifierOutcome.exitFailure "boom")
          (pre ++ ("S1", "r1", "r2") :: post) [] s).1 =
          (run_pipeline "out" (fun _ _ => ClassifierOutcome.exitFailure "boom")
            (pre ++ post) [] s).1) :=
  claim_C3_classifier_failure_writes_nothing "out" []
    (fun _ _ => ClassifierOutcome.exitFailure "boom") "S1" "r1" "r2" rfl

/-! ### Claim C4 -/

/-- Claim C4: when the extracted group label is outside the six allowed
clade names, the isolate produces zero ledger writes (the whole store is
unchanged), the warning is printed, and the run continues: a full pipeline
run containing this isolate produces the same store as the run without it. -/
theorem claim_C4_disallowed_clade_writes_nothing (clade_dir : String)
    (contigs : List (String × String)) (oracle : String → String → ClassifierOutcome)
    (id r1 r2 clade : String) (rows : List (List String))
    (hrows : run_auriclass (oracle id r1) = some rows)
    (hparse : parse_report rows = some clade)
    (hcl : clade ∉ allowed_clades) :
    (∀ s : Store, (process_sample clade_dir contigs oracle s id r1 r2).1 = s) ∧
      (∀ s : Store, ("Warning: Clade " ++ clade ++ " for " ++ id ++
        " is not in the allowed list. Skipping sample.") ∈
        (process_sample clade_dir contigs oracle s id r1 r2).2) ∧
      (∀ (pre post : List (String × String × String)) (s : Store),
        (run_pipeline clade_dir oracle (pre ++ (id, r1, r2) :: post) contigs s).1 =
          (run_pipeline clade_dir oracle (pre ++ post) contigs s).1) :=
  ⟨fun s => process_sample_badclade_fst hrows hparse hcl s,
    fun s => process_sample_badclade_msg hrows hparse hcl s,
    fun pre post s =>
      run_pipeline_skip_sample
        (fun s => process_sample_badclade_fst hrows hparse hcl s) pre post s⟩

/-- Claim C4 witness: a concrete disallowed label ("Clade VII"). -/
theorem claim_C4_witness :
    (∀ s : Store, (process_sample "out" []
        (fun _ _ => ClassifierOutcome.report [["h1", "h2"], ["x", "Clade VII"]])
        s "S1" "r1" "r2").1 = s) ∧
      (∀ s : Store, ("Warning: Clade " ++ "Clade VII" ++ " for " ++ "S1" ++
        " is not in the allowed list. Skipping sample.") ∈
        (process_sample "out" []
          (fun _ _ => ClassifierOutcome.report [["h1", "h2"], ["x", "Clade VII"]])
          s "S1" "r1" "r2").2) ∧
      (∀ (pre post : List (String × String × String)) (s : Store),
        (run_pipeline "out"
          (fun _ _ => ClassifierOutcome.report [["h1", "h2"], ["x", "Clade VII"]])
          (pre ++ ("S1", "r1", "r2") :: post) [] s).1 =
          (run_pipeline "out"
            (fun _ _ => ClassifierOutcome.report [["h1", "h2"], ["x", "Clade VII"]])
            (pre ++ post) [] s).1) :=
  claim_C4_disallowed_clade_writes_nothing "out" []
    (fun _ _ => ClassifierOutcome.report [["h1", "h2"], ["x", "Clade VII"]])
    "S1" "r1" "r2" "Clade VII" [["h1", "h2"], ["x", "Clade VII"]]
    rfl (by decide) (by decide)

/-! ### Claim C10 -/

/-- Claim C10: a contigs-table entry that exists but is the empty string is
treated exactly like a missing entry, because the guard tests truthiness of
the looked-up path: the group reference ledger (file and membership set) is
untouched and the missing-contigs warning is printed. -/
theorem claim_C10_empty_contigs_entry_treated_absent (clade_dir : String)
    (contigs : List (String × String)) (oracle : String → String → ClassifierOutcome)
    (id r1 r2 clade : String) (rows : List (List String))
    (hrows : run_auriclass (oracle id r1) = some rows)
    (hparse : parse_report rows = some clade)
    (hcl : clade ∈ allowed_clades)
    (hctg : getA id contigs = some "") :
    ∀ s : Store,
      getA (clade_contigs_file clade_dir clade)
          (process_sample clade_dir contigs oracle s id r1 r2).1.files =
        getA (clade_contigs_file clade_dir clade) s.files ∧
      getA (clade_contigs_file clade_dir clade)
          (process_sample clade_dir contigs oracle s id r1 r2).1.file_written_ids =
        getA (clade_contigs_file clade_dir clade) s.file_written_ids ∧
      ("Warning: No contigs entry found for " ++ id) ∈
        (process_sample clade_dir contigs oracle s id r1 r2).2 := by
  intro s
  obtain ⟨hne1, hne2, hne3⟩ := target_files_ne clade_dir hcl
  have hcf_ne_sum : clade_contigs_file clade_dir clade ≠ SUMMARY_FILE clade_dir := hne2
  have hcf_ne_reads : clade_contigs_file clade_dir clade ≠ clade_reads_file clade_dir clade :=
    fun e => hne3 e.symm
  rw [process_sample_commit_emptycontigs hrows hparse hcl hctg]
  refine ⟨?_, ?_, ?_⟩
  · rw [append_files_other hcf_ne_sum, append_files_other hcf_ne_reads]
  · rw [append_ids_other hcf_ne_sum, append_ids_other hcf_ne_reads]
  · simp

/-- Claim C10 witness: a concrete isolate whose contigs entry is the empty
string; the reference ledger stays untouched and the warning is printed. -/
theorem claim_C10_witness :
    getA (clade_contigs_file "out" "Clade I")
        (process_sample "out" [("S1", "")]
          (fun _ _ => ClassifierOutcome.report [["h1", "h2"], ["x", "Clade I"]])
          (Store.mk [] []) "S1" "r1" "r2").1.files =
      getA (clade_contigs_file "out" "Clade I") (Store.mk [] [] : Store).files ∧
    getA (clade_contigs_file "out" "Clade I")
        (process_sample "out" [("S1", "")]
          (fun _ _ => ClassifierOutcome.report [["h1", "h2"], ["x", "Clade I"]])
          (Store.mk [] []) "S1" "r1" "r2").1.file_written_ids =
      getA (clade_contigs_file "out" "Clade I")
        (Store.mk [] [] : Store).file_written_ids ∧
    ("Warning: No contigs entry found for " ++ "S1") ∈
      (process_sample "out" [("S1", "")]
        (fun _ _ => ClassifierOutcome.report [["h1", "h2"], ["x", "Clade I"]])
        (Store.mk [] []) "S1" "r1" "r2").2 :=
  claim_C10_empty_contigs_entry_treated_absent "out" [("S1", "")]
    (fun _ _ => ClassifierOutcome.report [["h1", "h2"], ["x", "Clade I"]])
    "S1" "r1" "r2" "Clade I" [["h1", "h2"], ["x", "Clade I"]]
    rfl (by decide) (by decide) (by decide) (Store.mk [] [])

/-! ### Claim C9 -/

/-- Claim C9: `parse_report` consumes the first row as a header (the result
does not depend on it); with a data row of at least two columns it returns
that row's second column stripped of surrounding whitespace; with no header
row, no data row, or a short data row it returns `None`. -/
theorem claim_C9_parse_report_shape :
    parse_report [] = none ∧
      (∀ h : List String, parse_report [h] = none) ∧
      (∀ (h row : List String) (rest : List (List String)), row.length < 2 →
        parse_report (h :: row :: rest) = none) ∧
      (∀ (h row : List String) (rest : List (List String)), 2 ≤ row.length →
        parse_report (h :: row :: rest) = some (strip (row.getD 1 ""))) ∧
      (∀ (h h' : List String) (rest : List (List String)),
        parse_report (h :: rest) = parse_report (h' :: rest)) := by
  refine ⟨rfl, fun h => rfl, ?_, ?_, ?_⟩
  · intro h row rest hlen
    simp [parse_report, hlen]
  · intro h row rest hlen
    have hnl := Nat.not_lt.mpr hlen
    simp [parse_report, hnl]
  · intro h h' rest
    cases rest <;> rfl

/-- Claim C9 witness: concrete reports for each case. -/
theorem claim_C9_witness :
    parse_report [] = none ∧
      parse_report [["h"]] = none ∧
      parse_report [["h1"], ["x"]] = none ∧
      parse_report [["h1"], ["x", " Clade II "]] =
        some (strip (["x", " Clade II "].getD 1 "")) ∧
      parse_report (["a"] :: [["x", "y"]]) = parse_report (["b"] :: [["x", "y"]]) :=
  ⟨claim_C9_parse_report_shape.1,
    claim_C9_parse_report_shape.2.1 ["h"],
    claim_C9_parse_report_shape.2.2.1 ["h1"] ["x"] [] (by decide),
    claim_C9_parse_report_shape.2.2.2.1 ["h1"] ["x", " Clade II "] [] (by decide),
    claim_C9_parse_report_shape.2.2.2.2 ["a"] ["b"] [["x", "y"]]⟩

/-! ### Claim C5 -/

/-- Claim C5: the membership index is built by reading the file line by
line, skipping blank lines and lines matching the supplied header, taking
each remaining line's first tab-delimited field; the summary-creation guard
leaves an existing summary file untouched (no duplicated header), and an
identifier already recoverable from the file is reported as already
committed without any write. -/
theorem claim_C5_header_skip_and_reload :
    (∀ (clade_dir : String) (s : Store),
      (getA (SUMMARY_FILE clade_dir) s.files).isSome →
      create_summary_file clade_dir s = s) ∧
      (∀ (hdr l : String) (ls : List String), strip l = strip hdr →
        loadIds (some hdr) (l :: ls) = loadIds (some hdr) ls) ∧
      (∀ (hdr : Option String) (l : String) (ls : List String), strip l = "" →
        loadIds hdr (l :: ls) = loadIds hdr ls) ∧
      (∀ (hdr : Option String) (l : String) (ls : List String), strip l ≠ "" →
        matchesHeader hdr l = false →
        loadIds hdr (l :: ls) = firstField l :: loadIds hdr ls) ∧
      (∀ (s : Store) (f line id : String) (hdr : Option String) (lines : List String),
        getA f s.file_written_ids = none → getA f s.files = some lines →
        id ∈ loadIds hdr lines →
        (append_line_if_not_exists s f line id hdr).2.1 = false ∧
          (append_line_if_not_exists s f line id hdr).1.files = s.files ∧
          (append_line_if_not_exists s f line id hdr).2.2 =
            [id ++ " already exists in " ++ f ++ ". Skipping."]) := by
  refine ⟨?_, ?_, ?_, ?_, ?_⟩
  · intro clade_dir s h
    exact create_summary_of_isSome h
  · intro hdr l ls hmatch
    by_cases hb : strip l = ""
    · simp [loadIds, hb]
    · simp [loadIds, hb, matchesHeader, hmatch]
  · intro hdr l ls hb
    simp [loadIds, hb]
  · intro hdr l ls hb hh
    simp [loadIds, hb, hh]
  · intro s f line id hdr lines hids hfile hmem
    have hm : id ∈ loadIds hdr (linesOf s f) := by
      unfold linesOf
      rw [hfile]
      exact hmem
    rw [append_fresh_skip hids hm]
    exact ⟨rfl, rfl, rfl⟩

/-- Claim C5 witness: a run against a summary ledger that already contains
the header and one committed isolate. -/
theorem claim_C5_witness :
    (create_summary_file "d"
        (Store.mk [(SUMMARY_FILE "d", [summary_header, "S1\tClade I"])] []) =
      Store.mk [(SUMMARY_FILE "d", [summary_header, "S1\tClade I"])] []) ∧
      loadIds (some summary_header) ["Isolate_ID\tClade", "S1\tClade I"] =
        loadIds (some summary_header) ["S1\tClade I"] ∧
      loadIds (some summary_header) [" ", "S1\tClade I"] =
        loadIds (some summary_header) ["S1\tClade I"] ∧
      loadIds (some summary_header) ["S1\tClade I"] =
        firstField "S1\tClade I" :: loadIds (some summary_header) [] ∧
      ((append_line_if_not_exists
          (Store.mk [(SUMMARY_FILE "d", [summary_header, "S1\tClade I"])] [])
          (SUMMARY_FILE "d") "S1\tClade I" "S1" (some summary_header)).2.1 = false ∧
        (append_line_if_not_exists
          (Store.mk [(SUMMARY_FILE "d", [summary_header, "S1\tClade I"])] [])
          (SUMMARY_FILE "d") "S1\tClade I" "S1" (some summary_header)).1.files =
          (Store.mk [(SUMMARY_FILE "d", [summary_header, "S1\tClade I"])] []
            : Store).files ∧
        (append_line_if_not_exists
          (Store.mk [(SUMMARY_FILE "d", [summary_header, "S1\tClade I"])] [])
          (SUMMARY_FILE "d") "S1\tClade I" "S1" (some summary_header)).2.2 =
          ["S1" ++ " already exists in " ++ SUMMARY_FILE "d" ++ ". Skipping."]) :=
  ⟨claim_C5_header_skip_and_reload.1 "d" _ (by decide),
    claim_C5_header_skip_and_reload.2.1 summary_header "Isolate_ID\tClade" _ (by decide),
    claim_C5_header_skip_and_reload.2.2.1 (some summary_header) " " _ (by decide),
    claim_C5_header_skip_and_reload.2.2.2.1 (some summary_header) "S1\tClade I" []
      (by decide) (by decide),
    claim_C5_header_skip_and_reload.2.2.2.2
      (Store.mk [(SUMMARY_FILE "d", [summary_header, "S1\tClade I"])] [])
      (SUMMARY_FILE "d") "S1\tClade I" "S1" (some summary_header)
      [summary_header, "S1\tClade I"] rfl (by decide) (by decide)⟩

/-! ### Loader loop lemmas -/

theorem load_rows_reads_append (table : String) :
    ∀ (l1 l2 : List (List String))
      (acc : List (String × (String × String)) × List String),
      load_rows_reads table acc (l1 ++ l2) =
        load_rows_reads table (load_rows_reads table acc l1) l2 := by
  intro l1
  induction l1 with
  | nil => intro l2 acc; rfl
  | cons r rest ih =>
    intro l2 acc
    rw [List.cons_append]
    simp only [load_rows_reads]
    split
    · exact ih l2 acc
    · split
      · exact ih l2 acc
      · split
        · exact ih l2 _
        · exact ih l2 _

theorem load_rows_contigs_append (table : String) :
    ∀ (l1 l2 : List (List String)) (acc : List (String × String) × List String),
      load_rows_contigs table acc (l1 ++ l2) =
        load_rows_contigs table (load_rows_contigs table acc l1) l2 := by
  intro l1
  induction l1 with
  | nil => intro l2 acc; rfl
  | cons r rest ih =>
    intro l2 acc
    rw [List.cons_append]
    simp only [load_rows_contigs]
    split
    · exact ih l2 acc
    · split
      · exact ih l2 acc
      · split
        · exact ih l2 _
        · exact ih l2 _

theorem load_rows_reads_skip (table : String)
    (acc : List (String × (String × String)) × List String)
    {row : List String} (rest : List (List String))
    (h : row = [] ∨ startsWithHash (row.headD "") = true) :
    load_rows_reads table acc (row :: rest) = load_rows_reads table acc rest := by
  rcases h with h | h
  · subst h
    simp [load_rows_reads]
  · by_cases he : row = []
    · subst he
      simp [load_rows_reads]
    · have h' : startsWithHash (row.head?.getD "") = true := by simpa using h
      simp [load_rows_reads, he, h']

theorem load_rows_contigs_skip (table : String)
    (acc : List (String × String) × List String)
    {row : List String} (rest : List (List String))
    (h : row = [] ∨ startsWithHash (row.headD "") = true) :
    load_rows_contigs table acc (row :: rest) = load_rows_contigs table acc rest := by
  rcases h with h | h
  · subst h
    simp [load_rows_contigs]
  · by_cases he : row = []
    · subst he
      simp [load_rows_contigs]
    · have h' : startsWithHash (row.head?.getD "") = true := by simpa using h
      simp [load_rows_contigs, he, h']

theorem load_rows_reads_shift (table : String) :
    ∀ (rows : List (List String)) (m : List (String × (String × String)))
      (lg : List String),
      load_rows_reads table (m, lg) rows =
        ((load_rows_reads table (m, []) rows).1,
          lg ++ (load_rows_reads table (m, []) rows).2) := by
  intro rows
  induction rows with
  | nil => intro m lg; simp [load_rows_reads]
  | cons r rest ih =>
    intro m lg
    simp only [load_rows_reads]
    split
    · exact ih m lg
    · split
      · exact ih m lg
      · split
        · exact ih _ lg
        · rw [ih m (lg ++ [skip_row_message table r]),
            ih m ([] ++ [skip_row_message table r])]
          simp [List.append_assoc]

theorem load_rows_contigs_shift (table : String) :
    ∀ (rows : List (List String)) (m : List (String × String)) (lg : List String),
      load_rows_contigs table (m, lg) rows =
        ((load_rows_contigs table (m, []) rows).1,
          lg ++ (load_rows_contigs table (m, []) rows).2) := by
  intro rows
  induction rows with
  | nil => intro m lg; simp [load_rows_contigs]
  | cons r rest ih =>
    intro m lg
    simp only [load_rows_contigs]
    split
    · exact ih m lg
    · split
      · exact ih m lg
      · split
        · exact ih _ lg
        · rw [ih m (lg ++ [skip_row_message table r]),
            ih m ([] ++ [skip_row_message table r])]
          simp [List.append_assoc]

theorem load_rows_reads_malformed (table : String)
    (m : List (String × (String × String))) (lg : List String)
    {row : List String} (rest : List (List String))
    (hne : row ≠ []) (hnh : startsWithHash (row.headD "") = false)
    (hlen : row.length ≠ 3) :
    load_rows_reads table (m, lg) (row :: rest) =
      load_rows_reads table (m, lg ++ [skip_row_message table row]) rest := by
  rcases row with _ | ⟨a, tl0⟩
  · exact absurd rfl hne
  · have hnh' : startsWithHash a = false := by simpa using hnh
    rcases tl0 with _ | ⟨b, _ | ⟨c, _ | ⟨d, tl⟩⟩⟩
    · simp [load_rows_reads, hnh']
    · simp [load_rows_reads, hnh']
    · exact absurd (by simp) hlen
    · simp [load_rows_reads, hnh']

theorem load_rows_contigs_malformed (table : String)
    (m : List (String × String)) (lg : List String)
    {row : List String} (rest : List (List String))
    (hne : row ≠ []) (hnh : startsWithHash (row.headD "") = false)
    (hlen : row.length ≠ 2) :
    load_rows_contigs table (m, lg) (row :: rest) =
      load_rows_contigs table (m, lg ++ [skip_row_message table row]) rest := by
  rcases row with _ | ⟨a, tl0⟩
  · exact absurd rfl hne
  · have hnh' : startsWithHash a = false := by simpa using hnh
    rcases tl0 with _ | ⟨b, _ | ⟨c, tl⟩⟩
    · simp [load_rows_contigs, hnh']
    · exact absurd (by simp) hlen
    · simp [load_rows_contigs, hnh']

/-! ### Claim C7 -/

/-- Claim C7 is false as stated: a three-field row whose first field is the
empty string is not skipped by the loader guard (`not row` only catches
entirely empty rows), so it contributes a mapping entry keyed by the empty
string. -/
theorem claim_C7_counterexample :
    (load_reads_tab "reads.tab" [["", "x", "y"]]).1 = [("", ("x", "y"))] := by
  decide

/-- Claim C7 (amended): the Input Loader skips rows that are entirely empty
(a blank line yields an empty row) and rows whose first field starts with
the comment marker, and such rows contribute nothing at all to the result
of either loader. -/
theorem claim_C7_skip_empty_and_comment_rows (table : String)
    (pre post : List (List String)) (row : List String)
    (h : row = [] ∨ startsWithHash (row.headD "") = true) :
    load_reads_tab table (pre ++ row :: post) = load_reads_tab table (pre ++ post) ∧
      load_contigs_tab table (pre ++ row :: post) =
        load_contigs_tab table (pre ++ post) := by
  constructor
  · unfold load_reads_tab
    rw [load_rows_reads_append, load_rows_reads_append]
    exact load_rows_reads_skip _ _ _ h
  · unfold load_contigs_tab
    rw [load_rows_contigs_append, load_rows_contigs_append]
    exact load_rows_contigs_skip _ _ _ h

/-- Claim C7 witness: an empty row and a comment row each leave both loader
results unchanged. -/
theorem claim_C7_witness :
    (load_reads_tab "t" ([] ++ ["#c"] :: [["a", "x", "y"]]) =
        load_reads_tab "t" ([] ++ [["a", "x", "y"]]) ∧
      load_contigs_tab "t" ([] ++ ["#c"] :: [["a", "x", "y"]]) =
        load_contigs_tab "t" ([] ++ [["a", "x", "y"]])) ∧
      (load_reads_tab "t" ([] ++ ([] : List String) :: [["a", "x", "y"]]) =
          load_reads_tab "t" ([] ++ [["a", "x", "y"]]) ∧
        load_contigs_tab "t" ([] ++ ([] : List String) :: [["a", "x", "y"]]) =
          load_contigs_tab "t" ([] ++ [["a", "x", "y"]])) :=
  ⟨claim_C7_skip_empty_and_comment_rows "t" [] [["a", "x", "y"]] ["#c"]
      (Or.inr (by decide)),
    claim_C7_skip_empty_and_comment_rows "t" [] [["a", "x", "y"]] []
      (Or.inl rfl)⟩

/-! ### Claim C8 -/

/-- Claim C8: a non-empty, non-comment source-table row that does not split
into exactly the expected field count (three for the reads table, two for
the contigs table) is reported with the skip message, adds nothing to the
mapping, and every other row is still processed (the mapping equals the one
obtained without the malformed row): such a row is never fatal to the run. -/
theorem claim_C8_malformed_row_reported (table : String)
    (pre post : List (List String)) (row : List String)
    (hne : row ≠ []) (hnh : startsWithHash (row.headD "") = false) :
    (row.length ≠ 3 →
      (load_reads_tab table (pre ++ row :: post)).1 =
        (load_reads_tab table (pre ++ post)).1 ∧
      skip_row_message table row ∈ (load_reads_tab table (pre ++ row :: post)).2) ∧
    (row.length ≠ 2 →
      (load_contigs_tab table (pre ++ row :: post)).1 =
        (load_contigs_tab table (pre ++ post)).1 ∧
      skip_row_message table row ∈ (load_contigs_tab table (pre ++ row :: post)).2) := by
  constructor
  · intro hlen
    unfold load_reads_tab
    rw [load_rows_reads_append, load_rows_reads_append,
      show load_rows_reads table ([], []) pre =
        ((load_rows_reads table ([], []) pre).1,
          (load_rows_reads table ([], []) pre).2) from rfl,
      load_rows_reads_malformed table _ _ _ hne hnh hlen,
      load_rows_reads_shift table post ((load_rows_reads table ([], []) pre).1)
        ((load_rows_reads table ([], []) pre).2 ++ [skip_row_message table row]),
      load_rows_reads_shift table post ((load_rows_reads table ([], []) pre).1)
        ((load_rows_reads table ([], []) pre).2)]
    constructor
    · rfl
    · simp
  · intro hlen
    unfold load_contigs_tab
    rw [load_rows_contigs_append, load_rows_contigs_append,
      show load_rows_contigs table ([], []) pre =
        ((load_rows_contigs table ([], []) pre).1,
          (load_rows_contigs table ([], []) pre).2) from rfl,
      load_rows_contigs_malformed table _ _ _ hne hnh hlen,
      load_rows_contigs_shift table post ((load_rows_contigs table ([], []) pre).1)
        ((load_rows_contigs table ([], []) pre).2 ++ [skip_row_message table row]),
      load_rows_contigs_shift table post ((load_rows_contigs table ([], []) pre).1)
        ((load_rows_contigs table ([], []) pre).2)]
    constructor
    · rfl
    · simp

/-- Claim C8 witness: a concrete four-field row between two well-formed rows
is reported and skipped by both loaders. -/
theorem claim_C8_witness :
    ((load_reads_tab "t"
          ([["a", "x", "y"]] ++ ["b", "x", "y", "z"] :: [["c", "u", "v"]])).1 =
        (load_reads_tab "t" ([["a", "x", "y"]] ++ [["c", "u", "v"]])).1 ∧
      skip_row_message "t" ["b", "x", "y", "z"] ∈
        (load_reads_tab "t"
          ([["a", "x", "y"]] ++ ["b", "x", "y", "z"] :: [["c", "u", "v"]])).2) ∧
      ((load_contigs_tab "t"
            ([["a", "x", "y"]] ++ ["b", "x", "y", "z"] :: [["c", "u", "v"]])).1 =
          (load_contigs_tab "t" ([["a", "x", "y"]] ++ [["c", "u", "v"]])).1 ∧
        skip_row_message "t" ["b", "x", "y", "z"] ∈
          (load_contigs_tab "t"
            ([["a", "x", "y"]] ++ ["b", "x", "y", "z"] :: [["c", "u", "v"]])).2) :=
  ⟨(claim_C8_malformed_row_reported "t" [["a", "x", "y"]] [["c", "u", "v"]]
      ["b", "x", "y", "z"] (by decide) (by decide)).1 (by decide),
    (claim_C8_malformed_row_reported "t" [["a", "x", "y"]] [["c", "u", "v"]]
      ["b", "x", "y", "z"] (by decide) (by decide)).2 (by decide)⟩

/-! ### Claim C6 -/

/-- Claim C6: an isolate present in the reads table, classifying to an
allowed clade, with no contigs-table entry: its row is committed to the
group reads ledger and to the global summary ledger, the group reference
ledger is never created, and the warning is logged; the missing reference
entry is not fatal to the isolate (it is processed to completion). Shown
for a run over a fresh ledger directory. -/
theorem claim_C6_missing_reference_partial_commit (clade_dir : String)
    (contigs : List (String × String)) (oracle : String → String → ClassifierOutcome)
    (id r1 r2 clade : String) (rows : List (List String))
    (hrows : run_auriclass (oracle id r1) = some rows)
    (hparse : parse_report rows = some clade)
    (hcl : clade ∈ allowed_clades)
    (hctg : getA id contigs = none) :
    getA (clade_reads_file clade_dir clade)
        (run_pipeline clade_dir oracle [(id, r1, r2)] contigs
          (Store.mk [] [])).1.files =
      some [id ++ "\t" ++ r1 ++ "\t" ++ r2] ∧
    getA (SUMMARY_FILE clade_dir)
        (run_pipeline clade_dir oracle [(id, r1, r2)] contigs
          (Store.mk [] [])).1.files =
      some [summary_header, id ++ "\t" ++ clade] ∧
    getA (clade_contigs_file clade_dir clade)
        (run_pipeline clade_dir oracle [(id, r1, r2)] contigs
          (Store.mk [] [])).1.files = none ∧
    ("Warning: No contigs entry found for " ++ id) ∈
      (run_pipeline clade_dir oracle [(id, r1, r2)] contigs (Store.mk [] [])).2 := by
  obtain ⟨hne1, hne2, hne3⟩ := target_files_ne clade_dir hcl
  have hSr : SUMMARY_FILE clade_dir ≠ clade_reads_file clade_dir clade :=
    fun e => hne1 e.symm
  have hSc : SUMMARY_FILE clade_dir ≠ clade_contigs_file clade_dir clade :=
    fun e => hne2 e.symm
  have hrc : clade_reads_file clade_dir clade ≠ clade_contigs_file clade_dir clade := hne3
  have hs0 : create_summary_file clade_dir (Store.mk [] []) =
      Store.mk [(SUMMARY_FILE clade_dir, [summary_header])]
        [(SUMMARY_FILE clade_dir, [])] := by
    unfold create_summary_file
    rw [if_neg]
    · rfl
    · simp [getA]
  have hl1 : getA (clade_reads_file clade_dir clade)
      (Store.mk [(SUMMARY_FILE clade_dir, [summary_header])]
        [(SUMMARY_FILE clade_dir, [])] : Store).file_written_ids = none := by
    simp only [getA]
    rw [if_neg hSr]
  have hfiles1 : getA (clade_reads_file clade_dir clade)
      ([(SUMMARY_FILE clade_dir, [summary_header])] : List (String × List String)) =
      none := by
    simp only [getA]
    rw [if_neg hSr]
  have hm1 : id ∉ loadIds none
      (linesOf (Store.mk [(SUMMARY_FILE clade_dir, [summary_header])]
        [(SUMMARY_FILE clade_dir, [])]) (clade_reads_file clade_dir clade)) := by
    simp [linesOf, hfiles1, loadIds]
  have ha1 : (append_line_if_not_exists
      (Store.mk [(SUMMARY_FILE clade_dir, [summary_header])]
        [(SUMMARY_FILE clade_dir, [])])
      (clade_reads_file clade_dir clade) (id ++ "\t" ++ r1 ++ "\t" ++ r2) id none).1 =
      Store.mk
        [(SUMMARY_FILE clade_dir, [summary_header]),
          (clade_reads_file clade_dir clade, [id ++ "\t" ++ r1 ++ "\t" ++ r2])]
        [(SUMMARY_FILE clade_dir, []), (clade_reads_file clade_dir clade, [id])] := by
    rw [append_fresh_commit hl1 hm1]
    simp [linesOf, hfiles1, loadIds, setAssoc, hSr]
  have hl3 : getA (SUMMARY_FILE clade_dir)
      (Store.mk
        [(SUMMARY_FILE clade_dir, [summary_header]),
          (clade_reads_file clade_dir clade, [id ++ "\t" ++ r1 ++ "\t" ++ r2])]
        [(SUMMARY_FILE clade_dir, []),
          (clade_reads_file clade_dir clade, [id])] : Store).file_written_ids =
      some [] := by
    simp [getA]
  have hm3 : id ∉ ([] : List String) := by simp
  have ha3 : (append_line_if_not_exists
      (Store.mk
        [(SUMMARY_FILE clade_dir, [summary_header]),
          (clade_reads_file clade_dir clade, [id ++ "\t" ++ r1 ++ "\t" ++ r2])]
        [(SUMMARY_FILE clade_dir, []), (clade_reads_file clade_dir clade, [id])])
      (SUMMARY_FILE clade_dir) (id ++ "\t" ++ clade) id (some summary_header)).1 =
      Store.mk
        [(SUMMARY_FILE clade_dir, [summary_header, id ++ "\t" ++ clade]),
          (clade_reads_file clade_dir clade, [id ++ "\t" ++ r1 ++ "\t" ++ r2])]
        [(SUMMARY_FILE clade_dir, [id]),
          (clade_reads_file clade_dir clade, [id])] := by
    rw [append_loaded_commit hl3 hm3]
    simp [linesOf, getA, setAssoc]
  have hfinal : (run_pipeline clade_dir oracle [(id, r1, r2)] contigs
      (Store.mk [] [])).1 =
      Store.mk
        [(SUMMARY_FILE clade_dir, [summary_header, id ++ "\t" ++ clade]),
          (clade_reads_file clade_dir clade, [id ++ "\t" ++ r1 ++ "\t" ++ r2])]
        [(SUMMARY_FILE clade_dir, [id]),
          (clade_reads_file clade_dir clade, [id])] := by
    rw [run_pipeline_fst, List.foldl_cons, List.foldl_nil, hs0,
      process_sample_commit_nocontigs hrows hparse hcl hctg]
    dsimp only
    rw [ha1, ha3]
  refine ⟨?_, ?_, ?_, ?_⟩
  · rw [hfinal]
    simp [getA, hSr]
  · rw [hfinal]
    simp [getA]
  · rw [hfinal]
    simp only [getA]
    rw [if_neg hSc, if_neg hrc]
  · unfold run_pipeline
    simp only [List.foldl_cons, List.foldl_nil, hs0,
      process_sample_commit_nocontigs hrows hparse hcl hctg]
    simp

/-- Claim C6 witness: the specification scenario — isolate S1 classifies to
Clade II and has no reference entry; the reads and summary ledgers receive
its rows, no Clade II reference ledger exists, and the warning is logged. -/
theorem claim_C6_witness :
    getA (clade_reads_file "out" "Clade II")
        (run_pipeline "out"
          (fun _ _ => ClassifierOutcome.report [["h1", "h2"], ["x", "Clade II"]])
          [("S1", "r1.fq.gz", "r2.fq.gz")] [] (Store.mk [] [])).1.files =
      some ["S1" ++ "\t" ++ "r1.fq.gz" ++ "\t" ++ "r2.fq.gz"] ∧
    getA (SUMMARY_FILE "out")
        (run_pipeline "out"
          (fun _ _ => ClassifierOutcome.report [["h1", "h2"], ["x", "Clade II"]])
          [("S1", "r1.fq.gz", "r2.fq.gz")] [] (Store.mk [] [])).1.files =
      some [summary_header, "S1" ++ "\t" ++ "Clade II"] ∧
    getA (clade_contigs_file "out" "Clade II")
        (run_pipeline "out"
          (fun _ _ => ClassifierOutcome.report [["h1", "h2"], ["x", "Clade II"]])
          [("S1", "r1.fq.gz", "r2.fq.gz")] [] (Store.mk [] [])).1.files = none ∧
    ("Warning: No contigs entry found for " ++ "S1") ∈
      (run_pipeline "out"
        (fun _ _ => ClassifierOutcome.report [["h1", "h2"], ["x", "Clade II"]])
        [("S1", "r1.fq.gz", "r2.fq.gz")] [] (Store.mk [] [])).2 :=
  claim_C6_missing_reference_partial_commit "out" []
    (fun _ _ => ClassifierOutcome.report [["h1", "h2"], ["x", "Clade II"]])
    "S1" "r1.fq.gz" "r2.fq.gz" "Clade II" [["h1", "h2"], ["x", "Clade II"]]
    rfl (by decide) (by decide) rfl
